import Mathlib

/-!
Verification development for the RAMCloud kernel-TCP RPC transport.

The repository provides the declaration header of `TcpTransport` (wire
`Header`, `IncomingMessage`, `TcpClientRpc`, `TcpServerRpc`, `TcpSession`,
`Socket`) together with the full source of `TransportManager.cc`.  The
implementation file of `TcpTransport` is not part of the sources, so the
framing reader, the outbound send routine and the session/socket state
machines below are modelled from the specification (sections 3, 4.1, 4.2,
4.4, 4.5 and 7 of the spec), while the `TransportManager` definitions are
a direct embedding of `TransportManager.cc`.

Bytes are modelled as natural numbers, buffers as lists of bytes, and a
non-blocking socket as a `Stream`: the bytes currently available plus the
status observed once they are exhausted (`EAGAIN`, EOF, or a hard error).
-/

namespace RAMCloud

/-- Modelled from the spec: `MAX_RPC_LEN` is a compile-time upper bound on a
single payload size (spec section 6 recommends at least 1 MiB; the constant
itself is not part of the provided sources). -/
def MAX_RPC_LEN : Nat := 1048576

/-- errno for a broken pipe, produced by `write` on a closed peer. -/
def EPIPE : Nat := 32

/-- errno for a connection reset by the peer. -/
def ECONNRESET : Nat := 104

/-- Little-endian encoding of `v` into `w` bytes (spec section 6: all header
fields are little-endian on the wire). -/
def toLE : Nat → Nat → List Nat
  | 0, _ => []
  | w + 1, v => v % 256 :: toLE w (v / 256)

/-- Little-endian decoding of a byte list back into a natural number. -/
def fromLE : List Nat → Nat
  | [] => 0
  | b :: bs => b + 256 * fromLE bs

/-- Wire header preceding every message: a 64-bit nonce and a 32-bit payload
length (`TcpTransport::Header` in the source header, packed to 12 bytes). -/
structure Header where
  nonce : Nat
  len : Nat
deriving Repr, DecidableEq

/-- Serialize a header: 8 bytes of nonce then 4 bytes of length, little-endian. -/
def encodeHeader (nonce len : Nat) : List Nat := toLE 8 nonce ++ toLE 4 len

/-- Parse the first 12 bytes of a received header buffer. -/
def decodeHeader (bs : List Nat) : Header :=
  { nonce := fromLE (bs.take 8), len := fromLE ((bs.drop 8).take 4) }

/-- A full frame on the wire: header followed by the payload
(spec section 6: `nonce(u64, LE) | len(u32, LE) | payload[len]`). -/
def wireFrame (nonce : Nat) (payload : List Nat) : List Nat :=
  encodeHeader nonce payload.length ++ payload

/-- Status of a non-blocking fd once its currently buffered bytes run out:
reads would block (`EAGAIN`), the peer sent FIN, or a socket error is pending. -/
inductive FdStatus where
  | active
  | closed
  | errored (errno : Nat)
deriving Repr, DecidableEq

/-- Modelled from the spec: the receive side of a non-blocking socket.
`pending` holds the bytes the kernel has buffered; after they are consumed a
read observes `status`. -/
structure Stream where
  pending : List Nat
  status : FdStatus
deriving Repr, DecidableEq

/-- Result of `IncomingMessage.readMessage` (spec section 4.1): more data
needed, message fully deposited, graceful FIN before a new message, or a
fatal I/O failure. -/
inductive ReadResult where
  | Incomplete
  | Complete
  | PeerClosed
  | Io (errno : Nat)
deriving Repr, DecidableEq

/-- Result produced when a read loop exhausts the buffered bytes before the
message part is complete: `EAGAIN` yields `Incomplete`, EOF in the middle of
a message and socket errors yield `Io`. -/
def stalledResult : FdStatus → ReadResult
  | .active => .Incomplete
  | .closed => .Io 0
  | .errored e => .Io e

/-- Modelled from the spec: reader state of `TcpTransport::IncomingMessage`.
`headerBytes` are the raw header bytes received so far
(`headerBytesReceived` is its length), `messageBytesReceived` counts body
bytes, `messageLength` is the number of body bytes that will be consumed,
and `buffer` is the sink (`none` means the body is discarded). -/
structure IncomingMessage where
  headerBytes : List Nat
  messageBytesReceived : Nat
  messageLength : Nat
  buffer : Option (List Nat)
deriving Repr, DecidableEq

/-- The number of header bytes received so far (0 to 12). -/
def IncomingMessage.headerBytesReceived (m : IncomingMessage) : Nat :=
  m.headerBytes.length

/-- The header as parsed from the received header bytes. -/
def IncomingMessage.header (m : IncomingMessage) : Header :=
  decodeHeader m.headerBytes

/-- A fresh server-side reader: the sink is bound to the new request's
payload buffer before the header arrives (spec section 4.1 step 2). -/
def IncomingMessage.freshServer : IncomingMessage := ⟨[], 0, 0, some []⟩

/-- A fresh client-side reader: the sink is resolved from the session once
the header has arrived (spec section 4.1 step 2). -/
def IncomingMessage.freshClient : IncomingMessage := ⟨[], 0, 0, none⟩

/-- Phase result of the header read loop. -/
inductive HeaderPhase where
  | done
  | incomplete
  | peerClosed
  | ioErr (errno : Nat)
deriving Repr, DecidableEq

/-- Modelled from the spec (section 4.1 step 1): while fewer than 12 header
bytes have arrived, read `12 - headerBytesReceived` bytes.  `EAGAIN` yields
`incomplete`; EOF before any header byte yields `peerClosed`; EOF
mid-header or a socket error yields `ioErr`.  Each iteration is one
non-blocking read (`recvCarefully` in the source header). -/
def headerLoop (hbs : List Nat) (s : Stream) : HeaderPhase × List Nat × Stream :=
  if h : hbs.length < 12 then
    match hp : s.pending with
    | [] =>
      match s.status with
      | .active => (.incomplete, hbs, s)
      | .closed => (if hbs.isEmpty then .peerClosed else .ioErr 0, hbs, s)
      | .errored e => (.ioErr e, hbs, s)
    | _ :: _ =>
      headerLoop (hbs ++ s.pending.take (12 - hbs.length))
        ⟨s.pending.drop (12 - hbs.length), s.status⟩
  else (.done, hbs, s)
termination_by s.pending.length
decreasing_by
  simp only [List.length_drop]
  have hlen : 0 < s.pending.length := by rw [hp]; exact Nat.succ_pos _
  omega

/-- Modelled from the spec (section 4.1 step 3): the body is read in chunks
of at most 8 KiB into a staging buffer and appended to the sink (or dropped
when discarding); `EAGAIN` yields `Incomplete`, EOF mid-body yields `Io`. -/
def bodyLoop (sink : Option (List Nat)) (msgLen mbr : Nat) (s : Stream) :
    ReadResult × Nat × Option (List Nat) × Stream :=
  if h : mbr < msgLen then
    match hp : s.pending with
    | [] => (stalledResult s.status, mbr, sink, s)
    | _ :: _ =>
      let chunk := s.pending.take (min 8192 (msgLen - mbr))
      bodyLoop (sink.map (fun b => b ++ chunk)) msgLen (mbr + chunk.length)
        ⟨s.pending.drop (min 8192 (msgLen - mbr)), s.status⟩
  else (.Complete, mbr, sink, s)
termination_by s.pending.length
decreasing_by
  simp only [List.length_drop]
  have hlen : 0 < s.pending.length := by rw [hp]; exact Nat.succ_pos _
  omega

/-- Modelled from the spec (section 4.1): drive the reader with non-blocking
reads on the stream.  Once the 12th header byte arrives the sink is
resolved: a client-side reader (`owner = some find`) asks the session
whether an RPC with the header's nonce is waiting (on a miss the body is
discarded); a server-side reader keeps its pre-bound request buffer.  A
header declaring `len > MAX_RPC_LEN` forces discard while
`messageLength = min len MAX_RPC_LEN` keeps the framing synchronized. -/
def readMessage (owner : Option (Nat → Bool)) (m : IncomingMessage) (s : Stream) :
    ReadResult × IncomingMessage × Stream :=
  if m.headerBytes.length < 12 then
    match headerLoop m.headerBytes s with
    | (.done, hbs, s1) =>
      let hdr := decodeHeader hbs
      let sink0 : Option (List Nat) :=
        match owner with
        | some find => if find hdr.nonce then some [] else none
        | none => m.buffer
      let sink := if MAX_RPC_LEN < hdr.len then none else sink0
      let msgLen := min hdr.len MAX_RPC_LEN
      match bodyLoop sink msgLen 0 s1 with
      | (r, mbr, sink1, s2) => (r, ⟨hbs, mbr, msgLen, sink1⟩, s2)
    | (.incomplete, hbs, s1) => (.Incomplete, { m with headerBytes := hbs }, s1)
    | (.peerClosed, hbs, s1) => (.PeerClosed, { m with headerBytes := hbs }, s1)
    | (.ioErr e, hbs, s1) => (.Io e, { m with headerBytes := hbs }, s1)
  else
    match bodyLoop m.buffer m.messageLength m.messageBytesReceived s with
    | (r, mbr, sink1, s1) => (r, { m with messageBytesReceived := mbr, buffer := sink1 }, s1)

/-- True when a completed header declared a payload larger than `MAX_RPC_LEN`
(a protocol violation; the connection is closed once the body is drained). -/
def oversized (m : IncomingMessage) : Bool :=
  decide (12 ≤ m.headerBytes.length) && decide (MAX_RPC_LEN < (decodeHeader m.headerBytes).len)

/-- Outcome of a single vectored `write` on the socket. -/
inductive WriteOutcome where
  | wrote (n : Nat)
  | eagain
  | epipe
  | econnreset
deriving Repr, DecidableEq

/-- Modelled from the spec (section 4.2): `TcpTransport::sendMessage` writes
one RPC frame from the first unsent byte.  It returns the updated count of
unsent bytes (`Except.ok`) or fails with the errno (`Except.error`),
together with the bytes that reached the wire: `EAGAIN/EWOULDBLOCK` leave
`bytesToSend` unchanged, `EPIPE/ECONNRESET` fail, and otherwise the number
of bytes the write reported is subtracted. -/
def sendMessage (nonce : Nat) (payload : List Nat) (bytesToSend : Nat) (w : WriteOutcome) :
    Except Nat Nat × List Nat :=
  let frame := wireFrame nonce payload
  let unsent := frame.drop (frame.length - bytesToSend)
  match w with
  | .eagain => (.ok bytesToSend, [])
  | .epipe => (.error EPIPE, [])
  | .econnreset => (.error ECONNRESET, [])
  | .wrote n => (.ok (bytesToSend - min n unsent.length), unsent.take (min n unsent.length))

/-- Modelled from the spec: a full round trip.  The client writes a request
frame with `sendMessage`, a server-side `IncomingMessage` reads it, the
server echoes the received payload under the received nonce, and a
client-side `IncomingMessage` whose session is waiting on `nonce` reads the
reply (spec section 8, round-trips). -/
def roundTrip (nonce : Nat) (payload : List Nat) : Option (List Nat) :=
  match sendMessage nonce payload (12 + payload.length) (.wrote (12 + payload.length)) with
  | (.ok 0, reqWire) =>
    match readMessage none IncomingMessage.freshServer ⟨reqWire, .active⟩ with
    | (.Complete, m1, _) =>
      match m1.buffer with
      | some req =>
        match sendMessage (decodeHeader m1.headerBytes).nonce req (12 + req.length)
            (.wrote (12 + req.length)) with
        | (.ok 0, replyWire) =>
          match readMessage (some (fun k => k == nonce)) IncomingMessage.freshClient
              ⟨replyWire, .active⟩ with
          | (.Complete, m2, _) => m2.buffer
          | _ => none
        | _ => none
      | none => none
    | _ => none
  | _ => none

/-- Modelled from the spec (section 3): a client-side pending RPC
(`TcpTransport::TcpClientRpc`): its nonce, its request bytes, and the
`sent` flag (false while queued on `rpcsWaitingToSend`). -/
structure TcpClientRpc where
  nonce : Nat
  request : List Nat
  sent : Bool
deriving Repr, DecidableEq

/-- Modelled from the spec (sections 3 and 4.5): the state of a
`TcpTransport::TcpSession`.  Beyond the fields of the source header
(`serial`, the two queues, `bytesLeftToSend`, `current`, the partial
reader, `errorInfo`, and the fd), the model keeps observation logs: the
bytes emitted on the wire, the `(nonce, request)` pairs in `clientSend`
order, and the nonces of completed, failed and cancelled RPCs. -/
structure TcpSession where
  serial : Nat
  rpcsWaitingToSend : List TcpClientRpc
  bytesLeftToSend : Nat
  rpcsWaitingForResponse : List TcpClientRpc
  current : Option Nat
  message : Option IncomingMessage
  errorInfo : Option String
  fdOpen : Bool
  submitted : List (Nat × List Nat)
  wire : List Nat
  completedRpcs : List Nat
  failedRpcs : List Nat
  cancelledRpcs : List Nat
deriving Repr, DecidableEq

/-- A fresh session: `serial` starts at 1 and every queue is empty. -/
def TcpSession.initial : TcpSession :=
  ⟨1, [], 0, [], none, none, none, true, [], [], [], [], []⟩

/-- Nonces of the RPCs queued for transmission. -/
def wtsNonces (st : TcpSession) : List Nat :=
  st.rpcsWaitingToSend.map (fun r => r.nonce)

/-- Nonces of the RPCs awaiting their responses. -/
def wfrNonces (st : TcpSession) : List Nat :=
  st.rpcsWaitingForResponse.map (fun r => r.nonce)

/-- Nonces of all live RPCs of the session (both queues). -/
def liveNonces (st : TcpSession) : List Nat := wtsNonces st ++ wfrNonces st

/-- Remove the RPC carrying nonce `n` from a queue. -/
def removeRpc (l : List TcpClientRpc) (n : Nat) : List TcpClientRpc :=
  l.filter (fun r => r.nonce != n)

/-- Error text recorded when the session is used after a fatal error. -/
def sessionUnusableMsg : String := "session is no longer usable"

/-- Error text recorded when a write fails hard. -/
def writeErrorMsg : String := "socket write error"

/-- Error text recorded when a read fails hard. -/
def readErrorMsg : String := "socket read error"

/-- Error text recorded when the peer closed the connection. -/
def peerClosedMsg : String := "peer closed connection"

/-- Error text recorded when an oversized header is received. -/
def protocolViolationMsg : String := "oversized message header: protocol violation"

/-- Error text recorded when an RPC is cancelled in mid-transmission. -/
def cancelMidSendMsg : String := "rpc cancelled in mid-transmission"

/-- Modelled from the spec (sections 4.5 and 7): a fatal error permanently
disables the session: `errorInfo` is set, the fd is closed, and every RPC
in both queues fails with a transport exception. -/
def sessionFail (st : TcpSession) (msg : String) : TcpSession :=
  { st with errorInfo := some msg, fdOpen := false,
            rpcsWaitingToSend := [], rpcsWaitingForResponse := [],
            current := none, message := none, bytesLeftToSend := 0,
            failedRpcs := st.failedRpcs ++ liveNonces st }

/-- Modelled from the spec (sections 4.4 and 4.5): one `sendMessage` call on
the front of `rpcsWaitingToSend`.  When the final byte is written the RPC
is marked `sent` and moved to `rpcsWaitingForResponse` and draining may
continue; a partial write stops the drain; a hard error fails the session. -/
def sessionSendStep (st : TcpSession) (w : WriteOutcome) : TcpSession × Bool :=
  match st.rpcsWaitingToSend with
  | [] => (st, false)
  | f :: rest =>
    match sendMessage f.nonce f.request st.bytesLeftToSend w with
    | (.error _, out) => (sessionFail { st with wire := st.wire ++ out } writeErrorMsg, false)
    | (.ok rem, out) =>
      if rem = 0 then
        ({ st with wire := st.wire ++ out,
                   rpcsWaitingToSend := rest,
                   rpcsWaitingForResponse :=
                     st.rpcsWaitingForResponse ++ [{ f with sent := true }],
                   bytesLeftToSend :=
                     match rest with
                     | [] => 0
                     | g :: _ => 12 + g.request.length }, true)
      else ({ st with wire := st.wire ++ out, bytesLeftToSend := rem }, false)

/-- Modelled from the spec (section 4.5, `WRITABLE`): drain
`rpcsWaitingToSend` with successive `sendMessage` calls; each element of
`outs` is the outcome of one write syscall. -/
def sessionWritable (st : TcpSession) (outs : List WriteOutcome) : TcpSession :=
  match outs with
  | [] => st
  | w :: ws =>
    if st.fdOpen then
      match sessionSendStep st w with
      | (st1, true) => sessionWritable st1 ws
      | (st1, false) => st1
    else st

/-- Modelled from the spec (section 4.5, `clientSend`): fail synchronously
if `errorInfo` is set; otherwise allocate the nonce `serial` (incrementing
`serial`), append a fresh RPC to `rpcsWaitingToSend`, and, when the queue
was empty, set `bytesLeftToSend` to the frame size and attempt one inline
send. -/
def clientSend (st : TcpSession) (request : List Nat) (w : WriteOutcome) :
    TcpSession × Except String Nat :=
  if st.errorInfo.isSome then (st, .error sessionUnusableMsg)
  else
    let nonce := st.serial
    let rpc : TcpClientRpc := { nonce := nonce, request := request, sent := false }
    let wasEmpty := st.rpcsWaitingToSend.isEmpty
    let st1 := { st with serial := st.serial + 1,
                         submitted := st.submitted ++ [(nonce, request)],
                         rpcsWaitingToSend := st.rpcsWaitingToSend ++ [rpc] }
    if wasEmpty then
      (((sessionSendStep { st1 with bytesLeftToSend := 12 + request.length } w)).1, .ok nonce)
    else (st1, .ok nonce)

/-- Modelled from the spec (section 4.5, `READABLE`): drive the
session-owned `IncomingMessage`.  When the header completes, `findRpc`
looks the nonce up in `rpcsWaitingForResponse` and records it as
`current`; on `Complete` the current RPC (if any) is completed and removed,
unless the header was oversized, in which case the connection is closed as
a protocol violation; `PeerClosed` and `Io` fail the session. -/
def sessionReadable (st : TcpSession) (s : Stream) : TcpSession × Stream :=
  if st.fdOpen then
    let m0 := st.message.getD IncomingMessage.freshClient
    match readMessage (some (fun n => (wfrNonces st).contains n)) m0 s with
    | (r, m1, s1) =>
      let st1 :=
        if m0.headerBytes.length < 12 ∧ 12 ≤ m1.headerBytes.length ∧
            (wfrNonces st).contains (decodeHeader m1.headerBytes).nonce then
          { st with current := some (decodeHeader m1.headerBytes).nonce }
        else st
      match r with
      | .Incomplete => ({ st1 with message := some m1 }, s1)
      | .Complete =>
        if oversized m1 then (sessionFail st1 protocolViolationMsg, s1)
        else
          match st1.current with
          | some n =>
            ({ st1 with rpcsWaitingForResponse := removeRpc st1.rpcsWaitingForResponse n,
                        completedRpcs := st1.completedRpcs ++ [n],
                        current := none, message := none }, s1)
          | none => ({ st1 with message := none }, s1)
      | .PeerClosed => (sessionFail st1 peerClosedMsg, s1)
      | .Io _ => (sessionFail st1 readErrorMsg, s1)
  else (st, s)

/-- True when cancelling nonce `n` would desynchronize the wire: `n` is the
RPC currently being transmitted and part of its frame is already out
(spec section 4.5, cancellation). -/
def cancelDesync (st : TcpSession) (n : Nat) : Bool :=
  match st.rpcsWaitingToSend with
  | [] => false
  | f :: _ => decide (f.nonce = n ∧ st.bytesLeftToSend < 12 + f.request.length)

/-- Modelled from the spec (section 4.5, cancellation): remove the RPC from
whichever list holds it.  If it was in mid-transmission the connection must
be closed (the wire is desynchronized); otherwise the queues stay framed
and, when the cancelled RPC was the unstarted front of the send queue,
`bytesLeftToSend` is reset for the new front. -/
def cancelCleanup (st : TcpSession) (n : Nat) : TcpSession :=
  if cancelDesync st n then
    sessionFail
      { st with rpcsWaitingToSend := removeRpc st.rpcsWaitingToSend n,
                rpcsWaitingForResponse := removeRpc st.rpcsWaitingForResponse n,
                current := if st.current = some n then none else st.current,
                cancelledRpcs := st.cancelledRpcs ++ [n] }
      cancelMidSendMsg
  else if (liveNonces st).contains n then
    { st with rpcsWaitingToSend := removeRpc st.rpcsWaitingToSend n,
              rpcsWaitingForResponse := removeRpc st.rpcsWaitingForResponse n,
              current := if st.current = some n then none else st.current,
              cancelledRpcs := st.cancelledRpcs ++ [n],
              bytesLeftToSend :=
                match st.rpcsWaitingToSend with
                | [] => st.bytesLeftToSend
                | f :: _ =>
                  if f.nonce = n then
                    match removeRpc st.rpcsWaitingToSend n with
                    | [] => 0
                    | g :: _ => 12 + g.request.length
                  else st.bytesLeftToSend }
  else st

/-- The session states reachable from a fresh session through the public
operations: `clientSend`, the `WRITABLE` handler, the `READABLE` handler,
and `cancelCleanup`. -/
inductive Reach : TcpSession → Prop where
  | init : Reach TcpSession.initial
  | send (st : TcpSession) (request : List Nat) (w : WriteOutcome) :
      Reach st → Reach (clientSend st request w).1
  | writable (st : TcpSession) (outs : List WriteOutcome) :
      Reach st → Reach (sessionWritable st outs)
  | readable (st : TcpSession) (s : Stream) :
      Reach st → Reach (sessionReadable st s).1
  | cancel (st : TcpSession) (n : Nat) :
      Reach st → Reach (cancelCleanup st n)

/-- The `(nonce, request)` pair of a client RPC. -/
def rpcPair (r : TcpClientRpc) : Nat × List Nat := (r.nonce, r.request)

/-- Concatenation of the wire frames of a list of `(nonce, payload)` pairs. -/
def framesOf (l : List (Nat × List Nat)) : List Nat :=
  (l.map (fun p => wireFrame p.1 p.2)).flatten

/-- Wire-order invariant of a session: the wire holds the frames of an
order-preserving subsequence of the `clientSend` calls, followed by a
prefix of the frame currently in transmission (tracked by
`bytesLeftToSend`); after a fatal close the trailing partial frame belongs
to some submitted RPC. -/
def WireInv (st : TcpSession) : Prop :=
  ∃ sent, List.Sublist (sent ++ st.rpcsWaitingToSend.map rpcPair) st.submitted ∧
    match st.rpcsWaitingToSend with
    | [] => st.wire = framesOf sent ∨
        (st.fdOpen = false ∧ ∃ p k, p ∈ st.submitted ∧
          st.wire = framesOf sent ++ (wireFrame p.1 p.2).take k)
    | f :: _ => st.bytesLeftToSend ≤ 12 + f.request.length ∧
        st.wire = framesOf sent ++
          (wireFrame f.nonce f.request).take (12 + f.request.length - st.bytesLeftToSend)

/-- Full accounting of every nonce ever allocated: it is live, completed,
failed, or cancelled. -/
def acctNonces (st : TcpSession) : List Nat :=
  liveNonces st ++ st.completedRpcs ++ st.failedRpcs ++ st.cancelledRpcs

/-- Session invariant: queue membership decides the `sent` flag, every
allocated nonce (the interval `[1, serial)`) is accounted for exactly once,
`current` points into `rpcsWaitingForResponse`, an error-free session has
an open fd, and the wire-order invariant holds. -/
def SessInv (st : TcpSession) : Prop :=
  (∀ r ∈ st.rpcsWaitingToSend, r.sent = false) ∧
  (∀ r ∈ st.rpcsWaitingForResponse, r.sent = true) ∧
  List.Perm (acctNonces st) (List.range' 1 (st.serial - 1)) ∧
  st.submitted.map Prod.fst = List.range' 1 (st.serial - 1) ∧
  1 ≤ st.serial ∧
  (st.errorInfo = none → st.fdOpen = true) ∧
  (∀ n, st.current = some n → n ∈ wfrNonces st) ∧
  WireInv st

/-- The queue-partition property of claim C4: queue membership decides the
`sent` flag, live nonces are pairwise distinct, and every nonce ever
allocated by `clientSend` is live, completed, failed, or cancelled --
exactly one of the four. -/
def QueuePartition (st : TcpSession) : Prop :=
  (∀ r ∈ st.rpcsWaitingToSend, r.sent = false) ∧
  (∀ r ∈ st.rpcsWaitingForResponse, r.sent = true) ∧
  (liveNonces st).Nodup ∧
  List.Perm (liveNonces st ++ st.completedRpcs ++ st.failedRpcs ++ st.cancelledRpcs)
    (st.submitted.map Prod.fst)

/-- Modelled from the spec (section 3): a server-side in-flight RPC
(`TcpTransport::TcpServerRpc`): the request's nonce (echoed unchanged in
the reply header) and the reply payload handed to `sendReply`. -/
structure TcpServerRpc where
  nonce : Nat
  replyPayload : List Nat
deriving Repr, DecidableEq

/-- Modelled from the spec (sections 3 and 4.4): the reply side of a
`TcpTransport::Socket`: the FIFO `rpcsWaitingToReply`, the unsent byte
count of the front reply, the fd state, the bytes emitted on the wire, and
the `(nonce, reply)` pairs in `sendReply` call order. -/
structure Socket where
  rpcsWaitingToReply : List TcpServerRpc
  bytesLeftToSend : Nat
  fdOpen : Bool
  wire : List Nat
  replyCalls : List (Nat × List Nat)
deriving Repr, DecidableEq

/-- A freshly accepted connection: no replies pending. -/
def Socket.initial : Socket := ⟨[], 0, true, [], []⟩

/-- Modelled from the spec (section 4.3): a read error or peer close drops
the socket; queued replies become unsendable. -/
def socketFail (sk : Socket) : Socket :=
  { sk with fdOpen := false, rpcsWaitingToReply := [], bytesLeftToSend := 0 }

/-- Modelled from the spec (section 4.4): one `sendMessage` call on the
front of `rpcsWaitingToReply`; a fully written reply is destroyed and
draining continues; a hard error closes the socket. -/
def socketSendStep (sk : Socket) (w : WriteOutcome) : Socket × Bool :=
  match sk.rpcsWaitingToReply with
  | [] => (sk, false)
  | f :: rest =>
    match sendMessage f.nonce f.replyPayload sk.bytesLeftToSend w with
    | (.error _, out) => (socketFail { sk with wire := sk.wire ++ out }, false)
    | (.ok rem, out) =>
      if rem = 0 then
        ({ sk with wire := sk.wire ++ out,
                   rpcsWaitingToReply := rest,
                   bytesLeftToSend :=
                     match rest with
                     | [] => 0
                     | g :: _ => 12 + g.replyPayload.length }, true)
      else ({ sk with wire := sk.wire ++ out, bytesLeftToSend := rem }, false)

/-- Modelled from the spec (section 4.4, `WRITABLE`): drain the reply queue
with successive `sendMessage` calls. -/
def socketWritable (sk : Socket) (outs : List WriteOutcome) : Socket :=
  match outs with
  | [] => sk
  | w :: ws =>
    if sk.fdOpen then
      match socketSendStep sk w with
      | (sk1, true) => socketWritable sk1 ws
      | (sk1, false) => sk1
    else sk

/-- Modelled from the spec (section 4.4, `sendReply`): a reply on a dead
connection self-destroys; otherwise it is appended to `rpcsWaitingToReply`
and, when the queue was empty, one inline send is attempted. -/
def sendReply (sk : Socket) (nonce : Nat) (reply : List Nat) (w : WriteOutcome) : Socket :=
  if sk.fdOpen then
    let sk1 := { sk with replyCalls := sk.replyCalls ++ [(nonce, reply)] }
    if sk1.rpcsWaitingToReply.isEmpty then
      (socketSendStep { sk1 with rpcsWaitingToReply := [⟨nonce, reply⟩],
                                 bytesLeftToSend := 12 + reply.length } w).1
    else { sk1 with rpcsWaitingToReply := sk1.rpcsWaitingToReply ++ [⟨nonce, reply⟩] }
  else sk

/-- The `(nonce, reply)` pair of a server RPC. -/
def srvPair (r : TcpServerRpc) : Nat × List Nat := (r.nonce, r.replyPayload)

/-- Wire-order invariant of a server connection, mirroring `WireInv`. -/
def SockInv (sk : Socket) : Prop :=
  ∃ sent, List.Sublist (sent ++ sk.rpcsWaitingToReply.map srvPair) sk.replyCalls ∧
    match sk.rpcsWaitingToReply with
    | [] => sk.wire = framesOf sent ∨
        (sk.fdOpen = false ∧ ∃ p k, p ∈ sk.replyCalls ∧
          sk.wire = framesOf sent ++ (wireFrame p.1 p.2).take k)
    | f :: _ => sk.bytesLeftToSend ≤ 12 + f.replyPayload.length ∧
        sk.wire = framesOf sent ++
          (wireFrame f.nonce f.replyPayload).take
            (12 + f.replyPayload.length - sk.bytesLeftToSend)

/-- The socket states reachable from a fresh connection through `sendReply`,
the `WRITABLE` handler, and a fatal close from the read handler. -/
inductive SockReach : Socket → Prop where
  | init : SockReach Socket.initial
  | reply (sk : Socket) (nonce : Nat) (rp : List Nat) (w : WriteOutcome) :
      SockReach sk → SockReach (sendReply sk nonce rp w)
  | writable (sk : Socket) (outs : List WriteOutcome) :
      SockReach sk → SockReach (socketWritable sk outs)
  | closeOnError (sk : Socket) : SockReach sk → SockReach (socketFail sk)

/-- A service locator as consumed by `TransportManager.cc`: only the
protocol token matters to the manager (option parsing lives in the external
`ServiceLocator` class, so locator strings are modelled pre-parsed as
locator lists; the empty string parses to the empty list). -/
structure ServiceLocator where
  protocol : String
deriving Repr, DecidableEq

/-- A constructed transport as seen by `TransportManager.cc`: the locator it
was constructed with (`none` for a client-only transport), the outcome of
`getSession` per locator (`none` models a thrown `TransportException`), and
the queue of requests its `serverRecv` will surface. -/
structure Transport where
  localLocator : Option ServiceLocator
  trySession : ServiceLocator → Option Nat
  recvQueue : List Nat

/-- A transport factory (`TransportFactory` in the source): the protocols it
supports and its `createTransport` constructor. -/
structure TransportFactory where
  protocols : List String
  make : Option ServiceLocator → Transport

/-- `TransportFactory::supports` from the source: membership in the
factory's protocol list. -/
def TransportFactory.supports (f : TransportFactory) (p : String) : Bool :=
  f.protocols.contains p

/-- State of `TransportManager` (`TransportManager.cc` lines 56-66): the
`initialized` flag, the registered factories, the listening transports, the
round-robin index of `serverRecv`, and the protocol-to-transport multimap. -/
structure TransportManager where
  initialized : Bool
  factories : List TransportFactory
  listening : List Transport
  nextToListen : Nat
  transports : List (String × Transport)

/-- One factory step of `TransportManager::initialize` (lines 98-115): if
some local locator's protocol is supported, construct the transport with it
and append it to `listening`; otherwise construct a client-only transport;
either way insert the protocol mappings. -/
def initFactory (locators : List ServiceLocator) (acc : TransportManager)
    (f : TransportFactory) : TransportManager :=
  match locators.find? (fun loc => f.supports loc.protocol) with
  | some loc =>
    let t := f.make (some loc)
    { acc with listening := acc.listening ++ [t],
               transports := acc.transports ++ f.protocols.map (fun p => (p, t)) }
  | none =>
    let t := f.make none
    { acc with transports := acc.transports ++ f.protocols.map (fun p => (p, t)) }

/-- `TransportManager::initialize` (lines 90-118): asserts the manager was
not already initialized (`none` models the assertion failure), constructs a
transport per factory, and finally sets `initialized`. -/
def TransportManager.initialize (tm : TransportManager) (locators : List ServiceLocator) :
    Option TransportManager :=
  if tm.initialized then none
  else some { (tm.factories.foldl (initFactory locators) tm) with initialized := true }

/-- The inner loop of `TransportManager::getSession` (lines 143-155): for
one locator, try every transport registered for its protocol; the first
session wins; a `TransportException` from a transport moves on. -/
def tryLocator (tm : TransportManager) (loc : ServiceLocator) : Option Nat :=
  (tm.transports.filter (fun pt => pt.1 == loc.protocol)).findSome?
    (fun pt => pt.2.trySession loc)

/-- `TransportManager::getSession` (lines 135-157): a manager that was never
initialized first initializes itself with an empty locator string (the
empty locator list); then every parsed locator is tried in order and
`none` models the final thrown `TransportException`. -/
def TransportManager.getSession (tm : TransportManager) (locators : List ServiceLocator) :
    TransportManager × Option Nat :=
  let tm1 := if tm.initialized then tm else ( tm.initialize []).getD tm
  (tm1, locators.findSome? (fun loc => tryLocator tm1 loc))

/-- Result of `serverRecv`: the thrown `UnrecoverableTransportException`, a
received request, or still spinning after the given number of polls (the
source loops forever until a transport surfaces a request). -/
inductive RecvOutcome where
  | unrecoverable (msg : String)
  | rpc (r : Nat)
  | starving
deriving Repr, DecidableEq

/-- Exception text of `TransportManager::serverRecv` (line 169). -/
def noListenMsg : String := "no transports to listen on"

/-- The polling loop of `TransportManager::serverRecv` (lines 170-178):
round-robin over `listening`, wrapping `nextToListen`, until some transport
surfaces a request; `fuel` bounds the number of polls in the model. -/
def serverRecvLoop (tm : TransportManager) : Nat → RecvOutcome × TransportManager
  | 0 => (.starving, tm)
  | fuel + 1 =>
    let i := if tm.listening.length ≤ tm.nextToListen then 0 else tm.nextToListen
    match tm.listening[i]? with
    | none => (.starving, tm)
    | some t =>
      match t.recvQueue with
      | [] => serverRecvLoop { tm with nextToListen := i + 1 } fuel
      | r :: rest =>
        (.rpc r, { tm with nextToListen := i + 1,
                           listening := tm.listening.set i { t with recvQueue := rest } })

/-- `TransportManager::serverRecv` (lines 165-179): with no listening
transports (never initialized, or the listening list is empty) the call
would block forever, so `UnrecoverableTransportException` is thrown;
otherwise the transports are polled round-robin. -/
def TransportManager.serverRecv (tm : TransportManager) (fuel : Nat) :
    RecvOutcome × TransportManager :=
  if !tm.initialized || tm.listening.isEmpty then (.unrecoverable noListenMsg, tm)
  else serverRecvLoop tm fuel

/-- A transport with no behaviour, used to instantiate concrete managers. -/
def inertTransport (loc : Option ServiceLocator) : Transport :=
  { localLocator := loc, trySession := fun _ => none, recvQueue := [] }

/-- The factory set installed by the `TransportManager` constructor
(lines 26-48, 56-66): kernel-TCP, fast-UDP and Infiniband factories. -/
def defaultFactories : List TransportFactory :=
  [ { protocols := ["kernelTcp", "tcp"], make := inertTransport },
    { protocols := ["fast+kernelUdp", "fast+udp"], make := inertTransport },
    { protocols := ["infinibandrc", "infrc"], make := inertTransport } ]

/-- A freshly constructed `TransportManager` (lines 56-66): not initialized,
factories registered, nothing listening. -/
def freshManager : TransportManager :=
  { initialized := false, factories := defaultFactories, listening := [],
    nextToListen := 0, transports := [] }

/-! ## Codec lemmas -/

theorem toLE_length (w v : Nat) : (toLE w v).length = w := by
  induction w generalizing v with
  | zero => rfl
  | succ w ih => simp [toLE, ih]

theorem fromLE_toLE (w v : Nat) (h : v < 256 ^ w) : fromLE (toLE w v) = v := by
  induction w generalizing v with
  | zero => simp [toLE, fromLE]; omega
  | succ w ih =>
    have hdiv : v / 256 < 256 ^ w := by
      rw [Nat.div_lt_iff_lt_mul (by norm_num)]
      calc v < 256 ^ (w + 1) := h
        _ = 256 ^ w * 256 := by rw [Nat.pow_succ]
    rw [toLE, fromLE, ih (v / 256) hdiv]
    omega

theorem encodeHeader_length (nonce len : Nat) : (encodeHeader nonce len).length = 12 := by
  simp [encodeHeader, toLE_length]

theorem decodeHeader_encodeHeader (nonce len : Nat) (hn : nonce < 2 ^ 64) (hl : len < 2 ^ 32) :
    decodeHeader (encodeHeader nonce len) = ⟨nonce, len⟩ := by
  have h8 : (toLE 8 nonce).length = 8 := toLE_length 8 nonce
  have htake : (toLE 8 nonce ++ toLE 4 len).take 8 = toLE 8 nonce := by
    have := List.take_left (toLE 8 nonce) (toLE 4 len)
    rwa [h8] at this
  have hdrop : (toLE 8 nonce ++ toLE 4 len).drop 8 = toLE 4 len := by
    have := List.drop_left (toLE 8 nonce) (toLE 4 len)
    rwa [h8] at this
  have htake4 : (toLE 4 len).take 4 = toLE 4 len := by
    have := List.take_length (toLE 4 len)
    rwa [toLE_length 4 len] at this
  have hn2 : nonce < 256 ^ 8 := by norm_num at hn ⊢; omega
  have hl2 : len < 256 ^ 4 := by norm_num at hl ⊢; omega
  simp [decodeHeader, encodeHeader, htake, hdrop, htake4,
    fromLE_toLE 8 nonce hn2, fromLE_toLE 4 len hl2]

theorem wireFrame_length (nonce : Nat) (p : List Nat) :
    (wireFrame nonce p).length = 12 + p.length := by
  simp [wireFrame, encodeHeader_length]

/-! ## Read-loop characterizations -/

theorem headerLoop_spec (hbs : List Nat) (s : Stream) (h1 : hbs.length ≤ 12) :
    headerLoop hbs s =
      if 12 - hbs.length ≤ s.pending.length then
        (.done, hbs ++ s.pending.take (12 - hbs.length),
         ⟨s.pending.drop (12 - hbs.length), s.status⟩)
      else
        ((match s.status with
          | .active => .incomplete
          | .closed => if hbs = [] ∧ s.pending = [] then .peerClosed else .ioErr 0
          | .errored e => .ioErr e), hbs ++ s.pending, ⟨[], s.status⟩) := by
  induction hbs, s using headerLoop.induct with
  | case1 hbs s h hp hst =>
    obtain ⟨pend, stat⟩ := s
    dsimp only at hp hst
    subst hp; subst hst
    have hc : ¬ (12 - hbs.length ≤ ([] : List Nat).length) := by simp; omega
    rw [headerLoop, if_neg hc]
    simp [h]
  | case2 hbs s h hp hst =>
    obtain ⟨pend, stat⟩ := s
    dsimp only at hp hst
    subst hp; subst hst
    have hc : ¬ (12 - hbs.length ≤ ([] : List Nat).length) := by simp; omega
    rw [headerLoop, if_neg hc]
    by_cases he : hbs = []
    · simp [h, he]
    · simp [h, he, List.isEmpty_iff]
  | case3 hbs s h hp e hst =>
    obtain ⟨pend, stat⟩ := s
    dsimp only at hp hst
    subst hp; subst hst
    have hc : ¬ (12 - hbs.length ≤ ([] : List Nat).length) := by simp; omega
    rw [headerLoop, if_neg hc]
    simp [h]
  | case4 hbs s h head tail hp ih =>
    obtain ⟨pend, stat⟩ := s
    dsimp only at hp ih ⊢
    subst hp
    rw [headerLoop]
    simp only [dif_pos h]
    by_cases hc : 12 - hbs.length ≤ (head :: tail).length
    · have hlen : (hbs ++ (head :: tail).take (12 - hbs.length)).length = 12 := by
        simp only [List.length_append, List.length_take]
        omega
      rw [ih (le_of_eq hlen), if_pos hc]
      simp [hlen]
    · have hle : (head :: tail).length ≤ 12 - hbs.length := by omega
      have htake : (head :: tail).take (12 - hbs.length) = head :: tail :=
        List.take_of_length_le hle
      have hdrop : (head :: tail).drop (12 - hbs.length) = [] :=
        List.drop_eq_nil_of_le hle
      rw [htake, hdrop] at ih ⊢
      have hlen2 : (hbs ++ head :: tail).length < 12 := by
        simp only [List.length_append]
        omega
      rw [ih (le_of_lt hlen2)]
      have hinner : ¬ (12 - (hbs ++ head :: tail).length ≤ ([] : List Nat).length) := by
        simp only [List.length_nil]
        omega
      rw [if_neg hinner, if_neg hc]
      cases stat <;> simp
  | case5 hbs s h =>
    have h12 : hbs.length = 12 := by omega
    rw [headerLoop]
    simp [h, h12]

theorem bodyLoop_spec (sink : Option (List Nat)) (msgLen mbr : Nat) (s : Stream)
    (h1 : mbr ≤ msgLen) :
    bodyLoop sink msgLen mbr s =
      if msgLen - mbr ≤ s.pending.length then
        (.Complete, msgLen, sink.map (fun b => b ++ s.pending.take (msgLen - mbr)),
         ⟨s.pending.drop (msgLen - mbr), s.status⟩)
      else
        (stalledResult s.status, mbr + s.pending.length,
         sink.map (fun b => b ++ s.pending), ⟨[], s.status⟩) := by
  induction sink, msgLen, mbr, s using bodyLoop.induct with
  | case1 sink msgLen mbr s h hp =>
    obtain ⟨pend, stat⟩ := s
    dsimp only at hp
    subst hp
    have hc : ¬ (msgLen - mbr ≤ ([] : List Nat).length) := by simp; omega
    rw [bodyLoop, if_neg hc]
    cases sink <;> simp [h]
  | case2 sink msgLen mbr s h head tail hp chunk ih =>
    obtain ⟨pend, stat⟩ := s
    dsimp only at hp chunk ih
    subst hp
    rw [bodyLoop]
    simp only [dif_pos h]
    have hih : mbr + ((head :: tail).take (min 8192 (msgLen - mbr))).length ≤ msgLen := by
      simp only [List.length_take, List.length_cons]
      omega
    rw [ih hih]
    by_cases hc : msgLen - mbr ≤ (head :: tail).length
    · have hclen : ((head :: tail).take (min 8192 (msgLen - mbr))).length
          = min 8192 (msgLen - mbr) := by
        simp only [List.length_take, List.length_cons]
        simp only [List.length_cons] at hc
        omega
      have hinner : msgLen - (mbr + ((head :: tail).take (min 8192 (msgLen - mbr))).length)
          ≤ ((head :: tail).drop (min 8192 (msgLen - mbr))).length := by
        simp only [hclen, List.length_drop, List.length_cons]
        simp only [List.length_cons] at hc
        omega
      rw [if_pos hinner, if_pos hc, hclen]
      have hsum : min 8192 (msgLen - mbr) + (msgLen - (mbr + min 8192 (msgLen - mbr)))
          = msgLen - mbr := by omega
      have e3 : (Option.map (fun b => b ++ (head :: tail).take (min 8192 (msgLen - mbr))) sink).map
            (fun b => b ++ ((head :: tail).drop (min 8192 (msgLen - mbr))).take
              (msgLen - (mbr + min 8192 (msgLen - mbr))))
          = sink.map (fun b => b ++ (head :: tail).take (msgLen - mbr)) := by
        cases sink with
        | none => rfl
        | some b =>
          simp only [Option.map]
          rw [List.append_assoc, ← List.take_add, hsum]
      have e4 : ((head :: tail).drop (min 8192 (msgLen - mbr))).drop
            (msgLen - (mbr + min 8192 (msgLen - mbr)))
          = (head :: tail).drop (msgLen - mbr) := by
        rw [List.drop_drop, hsum]
      rw [e3, e4]
    · have hinner : ¬ (msgLen - (mbr + ((head :: tail).take (min 8192 (msgLen - mbr))).length)
          ≤ ((head :: tail).drop (min 8192 (msgLen - mbr))).length) := by
        simp only [List.length_take, List.length_drop, List.length_cons]
        simp only [List.length_cons] at hc
        omega
      rw [if_neg hinner, if_neg hc]
      have hsum2 : mbr + ((head :: tail).take (min 8192 (msgLen - mbr))).length
          + ((head :: tail).drop (min 8192 (msgLen - mbr))).length
          = mbr + (head :: tail).length := by
        simp only [List.length_take, List.length_drop]
        omega
      have e3 : (Option.map (fun b => b ++ (head :: tail).take (min 8192 (msgLen - mbr))) sink).map
            (fun b => b ++ (head :: tail).drop (min 8192 (msgLen - mbr)))
          = sink.map (fun b => b ++ (head :: tail)) := by
        cases sink with
        | none => rfl
        | some b =>
          simp only [Option.map]
          rw [List.append_assoc, List.take_append_drop]
      rw [e3, hsum2]
  | case3 sink msgLen mbr s h =>
    have hm : mbr = msgLen := by omega
    rw [bodyLoop]
    subst hm
    cases sink <;> simp [h]

/-! ## readMessage and sendMessage lemmas -/

theorem headerLoop_full (nonce len : Nat) (tail : List Nat) (stat : FdStatus) :
    headerLoop ([] : List Nat) ⟨encodeHeader nonce len ++ tail, stat⟩
      = (.done, encodeHeader nonce len, ⟨tail, stat⟩) := by
  have henc := encodeHeader_length nonce len
  have htk : (encodeHeader nonce len ++ tail).take 12 = encodeHeader nonce len := by
    conv_lhs => rw [← henc]
    exact List.take_left _ _
  have hdp : (encodeHeader nonce len ++ tail).drop 12 = tail := by
    conv_lhs => rw [← henc]
    exact List.drop_left _ _
  rw [headerLoop_spec _ _ (by simp)]
  have hcond : 12 - ([] : List Nat).length ≤
      (⟨encodeHeader nonce len ++ tail, stat⟩ : Stream).pending.length := by
    simp [henc]
  rw [if_pos hcond]
  simp [htk, hdp]

theorem readMessage_full (owner : Option (Nat → Bool)) (m : IncomingMessage)
    (nonce len : Nat) (tail : List Nat) (stat : FdStatus)
    (hm : m.headerBytes = []) (hn : nonce < 2 ^ 64) (hl : len < 2 ^ 32)
    (htail : min len MAX_RPC_LEN ≤ tail.length) :
    readMessage owner m ⟨encodeHeader nonce len ++ tail, stat⟩ =
      (.Complete,
       ⟨encodeHeader nonce len, min len MAX_RPC_LEN, min len MAX_RPC_LEN,
        (if MAX_RPC_LEN < len then none
         else match owner with
           | some find => if find nonce then some [] else none
           | none => m.buffer).map (fun b => b ++ tail.take (min len MAX_RPC_LEN))⟩,
       ⟨tail.drop (min len MAX_RPC_LEN), stat⟩) := by
  have hBL : ∀ sink0 : Option (List Nat),
      bodyLoop sink0 (min len MAX_RPC_LEN) 0 ⟨tail, stat⟩
        = (.Complete, min len MAX_RPC_LEN,
           sink0.map (fun b => b ++ tail.take (min len MAX_RPC_LEN)),
           ⟨tail.drop (min len MAX_RPC_LEN), stat⟩) := by
    intro sink0
    rw [bodyLoop_spec _ _ _ _ (Nat.zero_le _)]
    rw [if_pos (by simpa using htail)]
    simp
  simp only [readMessage, hm]
  rw [if_pos (by simp : ([] : List Nat).length < 12)]
  rw [headerLoop_full]
  simp only [decodeHeader_encodeHeader nonce len hn hl]
  rw [hBL]

theorem sendMessage_fullWrite (nonce : Nat) (payload : List Nat) :
    sendMessage nonce payload (12 + payload.length) (.wrote (12 + payload.length))
      = (.ok 0, wireFrame nonce payload) := by
  have hlen := wireFrame_length nonce payload
  simp only [sendMessage, hlen]
  rw [Nat.sub_self]
  simp only [List.drop_zero]
  rw [hlen, Nat.min_self, Nat.sub_self]
  have : (wireFrame nonce payload).take (12 + payload.length) = wireFrame nonce payload := by
    apply List.take_of_length_le
    rw [hlen]
  rw [this]

theorem roundTrip_identity_core (nonce : Nat) (payload : List Nat) (hn : nonce < 2 ^ 64)
    (hL : payload.length ≤ MAX_RPC_LEN) : roundTrip nonce payload = some payload := by
  have hl32 : payload.length < 2 ^ 32 := by
    have hx : MAX_RPC_LEN < 2 ^ 32 := by norm_num [MAX_RPC_LEN]
    omega
  have hmin : min payload.length MAX_RPC_LEN = payload.length := Nat.min_eq_left hL
  have hnover : ¬ (MAX_RPC_LEN < payload.length) := by omega
  have hserver : readMessage none IncomingMessage.freshServer
      ⟨encodeHeader nonce payload.length ++ payload, .active⟩
      = (.Complete, ⟨encodeHeader nonce payload.length, payload.length, payload.length,
          some payload⟩, ⟨[], .active⟩) := by
    rw [readMessage_full none IncomingMessage.freshServer nonce payload.length payload .active
      rfl hn hl32 (by rw [hmin])]
    rw [if_neg hnover]
    simp [hmin, IncomingMessage.freshServer, List.take_length, List.drop_length]
  have hclient : readMessage (some (fun k => k == nonce)) IncomingMessage.freshClient
      ⟨encodeHeader nonce payload.length ++ payload, .active⟩
      = (.Complete, ⟨encodeHeader nonce payload.length, payload.length, payload.length,
          some payload⟩, ⟨[], .active⟩) := by
    rw [readMessage_full (some (fun k => k == nonce)) IncomingMessage.freshClient nonce
      payload.length payload .active rfl hn hl32 (by rw [hmin])]
    rw [if_neg hnover]
    simp [hmin, List.take_length, List.drop_length]
  rw [roundTrip, sendMessage_fullWrite]
  simp only [wireFrame]
  rw [hserver]
  simp only [decodeHeader_encodeHeader nonce payload.length hn hl32]
  rw [sendMessage_fullWrite]
  simp only [wireFrame]
  rw [hclient]

/-- Claim C3: for every `readMessage` call, the result is `Complete` exactly
when `headerBytesReceived = 12` and `messageBytesReceived = messageLength`
in the resulting reader state; `EAGAIN` (an active stream running dry)
yields `Incomplete` and `Incomplete` only arises that way; EOF before any
header byte of a new message yields `PeerClosed`; EOF mid-header or
mid-body yields an `Io` failure; and the four outcomes are exhaustive and
mutually exclusive (they are distinct constructors of `ReadResult`). -/
theorem tcp_read_message_outcomes (owner : Option (Nat → Bool))
    (m : IncomingMessage) (s : Stream)
    (h12 : m.headerBytes.length ≤ 12) (hmb : m.messageBytesReceived ≤ m.messageLength) :
    ((readMessage owner m s).1 = .Complete ↔
      ((readMessage owner m s).2.1.headerBytesReceived = 12 ∧
       (readMessage owner m s).2.1.messageBytesReceived =
         (readMessage owner m s).2.1.messageLength)) ∧
    (s.status = .active →
      (readMessage owner m s).1 = .Incomplete ∨ (readMessage owner m s).1 = .Complete) ∧
    ((readMessage owner m s).1 = .Incomplete → s.status = .active) ∧
    ((readMessage owner m s).1 = .PeerClosed ↔
      (s.status = .closed ∧ m.headerBytes = [] ∧ s.pending = [])) ∧
    (s.status = .closed → ¬(m.headerBytes = [] ∧ s.pending = []) →
      (readMessage owner m s).1 ≠ .Complete → (readMessage owner m s).1 = .Io 0) ∧
    ((readMessage owner m s).1 = .Incomplete ∨ (readMessage owner m s).1 = .Complete ∨
      (readMessage owner m s).1 = .PeerClosed ∨ ∃ e, (readMessage owner m s).1 = .Io e) := by
  obtain ⟨hbs, mbr0, mlen, buf⟩ := m
  obtain ⟨pend, stat⟩ := s
  dsimp only at h12 hmb ⊢
  by_cases hh : hbs.length < 12
  · have hHL := headerLoop_spec hbs ⟨pend, stat⟩ h12
    dsimp only at hHL
    by_cases hcond : 12 - hbs.length ≤ pend.length
    · rw [if_pos hcond] at hHL
      have hhbs1 : (hbs ++ pend.take (12 - hbs.length)).length = 12 := by
        simp only [List.length_append, List.length_take]
        omega
      have hR0 : readMessage owner ⟨hbs, mbr0, mlen, buf⟩ ⟨pend, stat⟩ =
          (let hbs1 := hbs ++ pend.take (12 - hbs.length)
           let tail1 := pend.drop (12 - hbs.length)
           let hdr := decodeHeader hbs1
           let sink : Option (List Nat) :=
             if MAX_RPC_LEN < hdr.len then none
             else match owner with
               | some find => if find hdr.nonce then some [] else none
               | none => buf
           let msgL := min hdr.len MAX_RPC_LEN
           if msgL ≤ tail1.length then
             (.Complete, ⟨hbs1, msgL, msgL, sink.map (fun b => b ++ tail1.take msgL)⟩,
              ⟨tail1.drop msgL, stat⟩)
           else
             (stalledResult stat, ⟨hbs1, tail1.length, msgL, sink.map (fun b => b ++ tail1)⟩,
              ⟨[], stat⟩)) := by
        simp only [readMessage]
        rw [if_pos hh, hHL]
        dsimp only
        rw [bodyLoop_spec _ _ _ _ (Nat.zero_le _)]
        dsimp only
        by_cases hbody : min (decodeHeader (hbs ++ pend.take (12 - hbs.length))).len
            MAX_RPC_LEN ≤ (pend.drop (12 - hbs.length)).length
        · rw [if_pos (by simpa using hbody), if_pos hbody]
          simp
        · rw [if_neg (by simpa using hbody), if_neg hbody]
          simp
      rw [hR0]
      dsimp only
      by_cases hbody : min (decodeHeader (hbs ++ pend.take (12 - hbs.length))).len
          MAX_RPC_LEN ≤ (pend.drop (12 - hbs.length)).length
      · rw [if_pos hbody]
        dsimp only [IncomingMessage.headerBytesReceived]
        have hne : ¬ (hbs = [] ∧ pend = []) := by
          rintro ⟨he1, he2⟩
          rw [he1, he2] at hcond
          simp at hcond
        refine ⟨by simp [hhbs1], fun _ => Or.inr rfl, by simp, ?_, ?_, ?_⟩
        · constructor
          · intro hx
            exact absurd hx (by simp)
          · rintro ⟨_, he1, he2⟩
            exact absurd ⟨he1, he2⟩ hne
        · intro _ _ hx
          exact absurd rfl hx
        · exact Or.inr (Or.inl rfl)
      · rw [if_neg hbody]
        dsimp only [IncomingMessage.headerBytesReceived]
        have hlt : (pend.drop (12 - hbs.length)).length <
            min (decodeHeader (hbs ++ pend.take (12 - hbs.length))).len MAX_RPC_LEN := by
          omega
        have hne : ¬ (hbs = [] ∧ pend = []) := by
          rintro ⟨he1, he2⟩
          rw [he1, he2] at hcond
          simp at hcond
        cases stat with
        | active =>
          refine ⟨?_, fun _ => Or.inl rfl, fun _ => rfl, ?_, ?_, Or.inl rfl⟩
          · simp only [stalledResult]
            constructor
            · intro hx
              exact absurd hx (by simp)
            · rintro ⟨_, hx⟩
              omega
          · simp [stalledResult]
          · intro hx
            exact absurd hx (by simp)
        | closed =>
          refine ⟨?_, by simp, by simp [stalledResult], ?_, ?_, ?_⟩
          · simp only [stalledResult]
            constructor
            · intro hx
              exact absurd hx (by simp)
            · rintro ⟨_, hx⟩
              omega
          · simp [stalledResult]
            intro h1 h2
            exact absurd ⟨h1, h2⟩ hne
          · intro _ _ _
            simp [stalledResult]
          · exact Or.inr (Or.inr (Or.inr ⟨0, rfl⟩))
        | errored e =>
          refine ⟨?_, by simp, by simp [stalledResult], ?_, by simp, ?_⟩
          · simp only [stalledResult]
            constructor
            · intro hx
              exact absurd hx (by simp)
            · rintro ⟨_, hx⟩
              omega
          · simp [stalledResult]
          · exact Or.inr (Or.inr (Or.inr ⟨e, rfl⟩))
    · rw [if_neg hcond] at hHL
      have hlen1 : (hbs ++ pend).length < 12 := by
        simp only [List.length_append]
        omega
      have hne12 : (hbs ++ pend).length ≠ 12 := by omega
      cases stat with
      | active =>
        dsimp only at hHL
        have hR0 : readMessage owner ⟨hbs, mbr0, mlen, buf⟩ ⟨pend, .active⟩ =
            (.Incomplete, ⟨hbs ++ pend, mbr0, mlen, buf⟩, ⟨[], .active⟩) := by
          simp only [readMessage]
          rw [if_pos hh, hHL]
        rw [hR0]
        dsimp only [IncomingMessage.headerBytesReceived]
        refine ⟨?_, fun _ => Or.inl rfl, fun _ => rfl, ?_, ?_, Or.inl rfl⟩
        · constructor
          · intro hx
            exact absurd hx (by simp)
          · rintro ⟨hx, _⟩
            omega
        · constructor
          · intro hx
            exact absurd hx (by simp)
          · rintro ⟨hx, _⟩
            exact absurd hx (by simp)
        · intro hx
          exact absurd hx (by simp)
      | closed =>
        dsimp only at hHL
        by_cases he : hbs = [] ∧ pend = []
        · rw [if_pos he] at hHL
          have hR0 : readMessage owner ⟨hbs, mbr0, mlen, buf⟩ ⟨pend, .closed⟩ =
              (.PeerClosed, ⟨hbs ++ pend, mbr0, mlen, buf⟩, ⟨[], .closed⟩) := by
            simp only [readMessage]
            rw [if_pos hh, hHL]
          rw [hR0]
          dsimp only [IncomingMessage.headerBytesReceived]
          refine ⟨?_, ?_, ?_, ?_, ?_, Or.inr (Or.inr (Or.inl rfl))⟩
          · constructor
            · intro hx
              exact absurd hx (by simp)
            · rintro ⟨hx, _⟩
              omega
          · intro hx
            exact absurd hx (by simp)
          · intro hx
            exact absurd hx (by simp)
          · exact ⟨fun _ => ⟨rfl, he⟩, fun _ => rfl⟩
          · intro _ hx
            exact absurd he hx
        · rw [if_neg he] at hHL
          have hR0 : readMessage owner ⟨hbs, mbr0, mlen, buf⟩ ⟨pend, .closed⟩ =
              (.Io 0, ⟨hbs ++ pend, mbr0, mlen, buf⟩, ⟨[], .closed⟩) := by
            simp only [readMessage]
            rw [if_pos hh, hHL]
          rw [hR0]
          dsimp only [IncomingMessage.headerBytesReceived]
          refine ⟨?_, ?_, ?_, ?_, fun _ _ _ => rfl, Or.inr (Or.inr (Or.inr ⟨0, rfl⟩))⟩
          · constructor
            · intro hx
              exact absurd hx (by simp)
            · rintro ⟨hx, _⟩
              omega
          · intro hx
            exact absurd hx (by simp)
          · intro hx
            exact absurd hx (by simp)
          · constructor
            · intro hx
              exact absurd hx (by simp)
            · rintro ⟨_, h1, h2⟩
              exact absurd ⟨h1, h2⟩ he
      | errored e =>
        dsimp only at hHL
        have hR0 : readMessage owner ⟨hbs, mbr0, mlen, buf⟩ ⟨pend, .errored e⟩ =
            (.Io e, ⟨hbs ++ pend, mbr0, mlen, buf⟩, ⟨[], .errored e⟩) := by
          simp only [readMessage]
          rw [if_pos hh, hHL]
        rw [hR0]
        dsimp only [IncomingMessage.headerBytesReceived]
        refine ⟨?_, ?_, ?_, ?_, ?_, Or.inr (Or.inr (Or.inr ⟨e, rfl⟩))⟩
        · constructor
          · intro hx
            exact absurd hx (by simp)
          · rintro ⟨hx, _⟩
            omega
        · intro hx
          exact absurd hx (by simp)
        · intro hx
          exact absurd hx (by simp)
        · constructor
          · intro hx
            exact absurd hx (by simp)
          · rintro ⟨hx, _⟩
            exact absurd hx (by simp)
        · intro hx
          exact absurd hx (by simp)
  · have hbs12 : hbs.length = 12 := by omega
    have hne : hbs ≠ [] := by
      intro hx
      rw [hx] at hbs12
      simp at hbs12
    have hBL := bodyLoop_spec buf mlen mbr0 ⟨pend, stat⟩ hmb
    dsimp only at hBL
    by_cases hbody : mlen - mbr0 ≤ pend.length
    · rw [if_pos hbody] at hBL
      have hR0 : readMessage owner ⟨hbs, mbr0, mlen, buf⟩ ⟨pend, stat⟩ =
          (.Complete, ⟨hbs, mlen, mlen, buf.map (fun b => b ++ pend.take (mlen - mbr0))⟩,
           ⟨pend.drop (mlen - mbr0), stat⟩) := by
        simp only [readMessage]
        rw [if_neg hh, hBL]
      rw [hR0]
      dsimp only [IncomingMessage.headerBytesReceived]
      refine ⟨by simp [hbs12], fun _ => Or.inr rfl, by simp, ?_, ?_, Or.inr (Or.inl rfl)⟩
      · constructor
        · intro hx
          exact absurd hx (by simp)
        · rintro ⟨_, hx, _⟩
          exact absurd hx hne
      · intro _ _ hx
        exact absurd rfl hx
    · rw [if_neg hbody] at hBL
      have hlt : mbr0 + pend.length < mlen := by omega
      cases stat with
      | active =>
        have hR0 : readMessage owner ⟨hbs, mbr0, mlen, buf⟩ ⟨pend, .active⟩ =
            (.Incomplete, ⟨hbs, mbr0 + pend.length, mlen, buf.map (fun b => b ++ pend)⟩,
             ⟨[], .active⟩) := by
          simp only [readMessage]
          rw [if_neg hh, hBL]
          rfl
        rw [hR0]
        dsimp only [IncomingMessage.headerBytesReceived]
        refine ⟨?_, fun _ => Or.inl rfl, fun _ => rfl, ?_, ?_, Or.inl rfl⟩
        · constructor
          · intro hx
            exact absurd hx (by simp)
          · rintro ⟨_, hx⟩
            omega
        · constructor
          · intro hx
            exact absurd hx (by simp)
          · rintro ⟨hx, _⟩
            exact absurd hx (by simp)
        · intro hx
          exact absurd hx (by simp)
      | closed =>
        have hR0 : readMessage owner ⟨hbs, mbr0, mlen, buf⟩ ⟨pend, .closed⟩ =
            (.Io 0, ⟨hbs, mbr0 + pend.length, mlen, buf.map (fun b => b ++ pend)⟩,
             ⟨[], .closed⟩) := by
          simp only [readMessage]
          rw [if_neg hh, hBL]
          rfl
        rw [hR0]
        dsimp only [IncomingMessage.headerBytesReceived]
        refine ⟨?_, ?_, ?_, ?_, fun _ _ _ => rfl, Or.inr (Or.inr (Or.inr ⟨0, rfl⟩))⟩
        · constructor
          · intro hx
            exact absurd hx (by simp)
          · rintro ⟨_, hx⟩
            omega
        · intro hx
          exact absurd hx (by simp)
        · intro hx
          exact absurd hx (by simp)
        · constructor
          · intro hx
            exact absurd hx (by simp)
          · rintro ⟨_, hx, _⟩
            exact absurd hx hne
      | errored e =>
        have hR0 : readMessage owner ⟨hbs, mbr0, mlen, buf⟩ ⟨pend, .errored e⟩ =
            (.Io e, ⟨hbs, mbr0 + pend.length, mlen, buf.map (fun b => b ++ pend)⟩,
             ⟨[], .errored e⟩) := by
          simp only [readMessage]
          rw [if_neg hh, hBL]
          rfl
        rw [hR0]
        dsimp only [IncomingMessage.headerBytesReceived]
        refine ⟨?_, ?_, ?_, ?_, ?_, Or.inr (Or.inr (Or.inr ⟨e, rfl⟩))⟩
        · constructor
          · intro hx
            exact absurd hx (by simp)
          · rintro ⟨_, hx⟩
            omega
        · intro hx
          exact absurd hx (by simp)
        · intro hx
          exact absurd hx (by simp)
        · constructor
          · intro hx
            exact absurd hx (by simp)
          · rintro ⟨hx, _⟩
            exact absurd hx (by simp)
        · intro hx
          exact absurd hx (by simp)

/-- Claim C5: for every `sendMessage` call with `rem` bytes of the frame
still unsent, the return value is the number of frame bytes still unsent
(0 meaning the frame is fully written): `EAGAIN/EWOULDBLOCK` returns `rem`
unchanged with nothing emitted, `EPIPE/ECONNRESET` fails with `Io`, and a
write that reports `n` bytes returns `rem` minus the reported byte count,
emits exactly the next unsent bytes of the frame, and leaves an unsent
suffix whose length is the returned value. -/
theorem tcp_send_message_unsent_count (nonce : Nat) (payload : List Nat)
    (rem : Nat) (w : WriteOutcome) (hrem : rem ≤ 12 + payload.length) :
    (w = .eagain → sendMessage nonce payload rem w = (.ok rem, [])) ∧
    (w = .epipe → sendMessage nonce payload rem w = (.error EPIPE, [])) ∧
    (w = .econnreset → sendMessage nonce payload rem w = (.error ECONNRESET, [])) ∧
    (∀ n, w = .wrote n →
      sendMessage nonce payload rem w =
        (.ok (rem - min n rem),
         ((wireFrame nonce payload).drop ((wireFrame nonce payload).length - rem)).take
           (min n rem)) ∧
      (wireFrame nonce payload).take ((wireFrame nonce payload).length - rem) ++
          (sendMessage nonce payload rem w).2
        = (wireFrame nonce payload).take
            ((wireFrame nonce payload).length - (rem - min n rem)) ∧
      ((wireFrame nonce payload).drop
          ((wireFrame nonce payload).length - (rem - min n rem))).length = rem - min n rem) := by
  have hL := wireFrame_length nonce payload
  have hulen : ((wireFrame nonce payload).drop ((wireFrame nonce payload).length - rem)).length
      = rem := by
    rw [List.length_drop, hL]
    omega
  refine ⟨?_, ?_, ?_, ?_⟩
  · rintro rfl
    rfl
  · rintro rfl
    rfl
  · rintro rfl
    rfl
  · rintro n rfl
    have he : sendMessage nonce payload rem (.wrote n) =
        (.ok (rem - min n rem),
         ((wireFrame nonce payload).drop ((wireFrame nonce payload).length - rem)).take
           (min n rem)) := by
      simp only [sendMessage, hulen]
    refine ⟨he, ?_, ?_⟩
    · rw [he]
      have harith : (wireFrame nonce payload).length - (rem - min n rem)
          = ((wireFrame nonce payload).length - rem) + min n rem := by omega
      rw [harith, List.take_add]
    · rw [List.length_drop, hL]
      omega

/-- Claim C1: a received header declaring `len > MAX_RPC_LEN` forces discard
mode (the sink becomes `none`) while `messageLength` is still set to
`min len MAX_RPC_LEN`, so exactly the capped body is drained and the
framing stays synchronized (the stream is left at the next frame boundary);
once the body is drained the session's read handler closes the connection
as a protocol violation; this holds for every nonce, every oversized
length, and every reader owner. -/
theorem tcp_oversized_header_discards_and_closes (owner : Option (Nat → Bool))
    (nonce len : Nat) (body rest : List Nat) (stat : FdStatus) (st : TcpSession)
    (hn : nonce < 2 ^ 64) (hl : len < 2 ^ 32) (hover : MAX_RPC_LEN < len)
    (hbody : body.length = min len MAX_RPC_LEN)
    (hopen : st.fdOpen = true) (hmsg : st.message = none) (herr : st.errorInfo = none) :
    (readMessage owner IncomingMessage.freshClient
        ⟨encodeHeader nonce len ++ (body ++ rest), stat⟩).1 = .Complete ∧
    (readMessage owner IncomingMessage.freshClient
        ⟨encodeHeader nonce len ++ (body ++ rest), stat⟩).2.1.buffer = none ∧
    (readMessage owner IncomingMessage.freshClient
        ⟨encodeHeader nonce len ++ (body ++ rest), stat⟩).2.1.messageLength
      = min len MAX_RPC_LEN ∧
    (readMessage owner IncomingMessage.freshClient
        ⟨encodeHeader nonce len ++ (body ++ rest), stat⟩).2.2 = ⟨rest, stat⟩ ∧
    (sessionReadable st ⟨encodeHeader nonce len ++ (body ++ rest), stat⟩).1.fdOpen = false ∧
    ((sessionReadable st
        ⟨encodeHeader nonce len ++ (body ++ rest), stat⟩).1.errorInfo).isSome = true := by
  have htail : min len MAX_RPC_LEN ≤ (body ++ rest).length := by
    rw [List.length_append]
    omega
  have htake : (body ++ rest).take (min len MAX_RPC_LEN) = body := by
    conv_lhs => rw [← hbody]
    exact List.take_left body rest
  have hdrop : (body ++ rest).drop (min len MAX_RPC_LEN) = rest := by
    conv_lhs => rw [← hbody]
    exact List.drop_left body rest
  have hread := readMessage_full owner IncomingMessage.freshClient nonce len (body ++ rest)
    stat rfl hn hl htail
  rw [if_pos hover] at hread
  simp only [Option.map_none'] at hread
  have hreadSess := readMessage_full (some (fun k => (wfrNonces st).contains k))
    IncomingMessage.freshClient nonce len (body ++ rest) stat rfl hn hl htail
  rw [if_pos hover] at hreadSess
  simp only [Option.map_none'] at hreadSess
  have hov : oversized ⟨encodeHeader nonce len, min len MAX_RPC_LEN, min len MAX_RPC_LEN,
      none⟩ = true := by
    simp [oversized, encodeHeader_length, decodeHeader_encodeHeader nonce len hn hl, hover]
  have hsess : (sessionReadable st ⟨encodeHeader nonce len ++ (body ++ rest), stat⟩).1.fdOpen
        = false ∧
      ((sessionReadable st
        ⟨encodeHeader nonce len ++ (body ++ rest), stat⟩).1.errorInfo).isSome = true := by
    simp only [sessionReadable, hopen, if_true, hmsg, Option.getD_none]
    rw [hreadSess]
    by_cases hfind : (IncomingMessage.freshClient.headerBytes.length < 12 ∧
        12 ≤ (encodeHeader nonce len).length ∧
        ((wfrNonces st).contains
          (decodeHeader (encodeHeader nonce len)).nonce) = true)
    · rw [if_pos hfind]
      simp [hov, sessionFail]
    · rw [if_neg hfind]
      simp [hov, sessionFail]
  rw [hread]
  exact ⟨rfl, rfl, rfl, by rw [hdrop], hsess.1, hsess.2⟩

/-! ## Session invariant machinery -/

theorem framesOf_append (l1 l2 : List (Nat × List Nat)) :
    framesOf (l1 ++ l2) = framesOf l1 ++ framesOf l2 := by
  simp [framesOf]

theorem framesOf_single (p : Nat × List Nat) : framesOf [p] = wireFrame p.1 p.2 := by
  simp [framesOf]

theorem mapNonce_removeRpc (l : List TcpClientRpc) (n : Nat) :
    (removeRpc l n).map (fun r => r.nonce)
      = (l.map (fun r => r.nonce)).filter (fun x => x != n) := by
  induction l with
  | nil => rfl
  | cons a t ih =>
    simp only [removeRpc, List.filter_cons, List.map_cons] at *
    by_cases hb : a.nonce = n
    · simp [hb, ih]
    · simp [hb, ih]

theorem count_filter_ne (l : List Nat) (n a : Nat) :
    (l.filter (fun x => x != n)).count a = if a = n then 0 else l.count a := by
  induction l with
  | nil => simp
  | cons b t ih =>
    simp only [List.filter_cons]
    by_cases hb : b = n
    · have hbf : (b != n) = false := by simp [hb]
      rw [hbf]
      simp only [Bool.false_eq_true, if_false]
      rw [ih]
      by_cases ha : a = n
      · simp [ha]
      · have hba : (b == a) = false := by
          simp only [beq_eq_false_iff_ne]
          intro hx
          exact ha (hx ▸ hb)
        simp [List.count_cons, hba, ha]
    · have hbt : (b != n) = true := by simp [hb]
      rw [hbt]
      simp only [if_true]
      rw [List.count_cons, ih, List.count_cons]
      by_cases ha : a = n
      · have hba : (b == a) = false := by
          simp only [beq_eq_false_iff_ne]
          intro hx
          exact hb (by rw [hx, ha])
        simp [ha, hba]
        exact hb
      · simp [ha]

theorem count_le_one_of_perm_range (l : List Nat) (s n : Nat)
    (h : List.Perm l (List.range' s n)) (a : Nat) : l.count a ≤ 1 := by
  have hnd : l.Nodup := (h.nodup_iff).mpr (List.nodup_range' _ _)
  exact List.nodup_iff_count_le_one.mp hnd a

theorem wireInv_weak (st : TcpSession) (h : WireInv st) :
    ∃ sent, List.Sublist sent st.submitted ∧
      (st.wire = framesOf sent ∨ ∃ p k, p ∈ st.submitted ∧
        st.wire = framesOf sent ++ (wireFrame p.1 p.2).take k) := by
  obtain ⟨sent, hsub, hm⟩ := h
  have hsent : List.Sublist sent st.submitted :=
    (List.sublist_append_left sent _).trans hsub
  cases hq : st.rpcsWaitingToSend with
  | nil =>
    rw [hq] at hm
    dsimp only at hm
    rcases hm with hm | ⟨_, p, k, hp, heq⟩
    · exact ⟨sent, hsent, Or.inl hm⟩
    · exact ⟨sent, hsent, Or.inr ⟨p, k, hp, heq⟩⟩
  | cons f r =>
    rw [hq] at hm
    dsimp only at hm
    refine ⟨sent, hsent, Or.inr ⟨rpcPair f, 12 + f.request.length - st.bytesLeftToSend, ?_,
      hm.2⟩⟩
    have hmem : rpcPair f ∈ sent ++ (st.rpcsWaitingToSend.map rpcPair) := by
      rw [hq]
      exact List.mem_append_right _ (by simp)
    exact hsub.subset hmem

theorem sessInv_sessionFail (st : TcpSession) (msg : String)
    (h3 : List.Perm (acctNonces st) (List.range' 1 (st.serial - 1)))
    (h4 : st.submitted.map Prod.fst = List.range' 1 (st.serial - 1))
    (h5 : 1 ≤ st.serial)
    (hweak : ∃ sent, List.Sublist sent st.submitted ∧
      (st.wire = framesOf sent ∨ ∃ p k, p ∈ st.submitted ∧
        st.wire = framesOf sent ++ (wireFrame p.1 p.2).take k)) :
    SessInv (sessionFail st msg) := by
  obtain ⟨sent, hsent, hwire⟩ := hweak
  refine ⟨by simp [sessionFail], by simp [sessionFail], ?_, h4, h5, ?_, ?_, ?_⟩
  · have hperm : List.Perm (acctNonces (sessionFail st msg)) (acctNonces st) := by
      rw [List.perm_iff_count]
      intro a
      simp only [acctNonces, liveNonces, wtsNonces, wfrNonces, sessionFail, List.count_append,
        List.map_nil, List.count_nil]
      omega
    exact hperm.trans h3
  · intro hx
    simp [sessionFail] at hx
  · intro n hx
    simp [sessionFail] at hx
  · refine ⟨sent, ?_, ?_⟩
    · show List.Sublist (sent ++ List.map rpcPair []) st.submitted
      simpa using hsent
    · show st.wire = framesOf sent ∨ ((false : Bool) = false ∧ ∃ p k, p ∈ st.submitted ∧
        st.wire = framesOf sent ++ (wireFrame p.1 p.2).take k)
      rcases hwire with hw | ⟨p, k, hp, heq⟩
      · exact Or.inl hw
      · exact Or.inr ⟨rfl, p, k, hp, heq⟩

theorem sendMessage_ok (nc : Nat) (pl : List Nat) (b : Nat) (w : WriteOutcome)
    (hb : b ≤ 12 + pl.length) (rem : Nat) (out : List Nat)
    (h : sendMessage nc pl b w = (.ok rem, out)) :
    rem ≤ b ∧
    (wireFrame nc pl).take (12 + pl.length - b) ++ out
      = (wireFrame nc pl).take (12 + pl.length - rem) := by
  have hL := wireFrame_length nc pl
  have hulen : ((wireFrame nc pl).drop
      ((wireFrame nc pl).length - b)).length = b := by
    rw [List.length_drop, hL]
    omega
  cases w with
  | eagain =>
    have he : sendMessage nc pl b .eagain = (.ok b, []) := rfl
    rw [he] at h
    injection h with h1 h2
    injection h1 with h1
    subst h1
    subst h2
    exact ⟨le_refl _, by simp⟩
  | epipe => simp [sendMessage] at h
  | econnreset => simp [sendMessage] at h
  | wrote n =>
    simp only [sendMessage, hulen] at h
    injection h with h1 h2
    injection h1 with h1
    subst h1
    subst h2
    constructor
    · omega
    · have harith : 12 + pl.length - (b - min n b)
          = (12 + pl.length - b) + min n b := by omega
      rw [harith, List.take_add, hL]

theorem sendMessage_error (nc : Nat) (pl : List Nat) (b : Nat) (w : WriteOutcome)
    (e : Nat) (out : List Nat)
    (h : sendMessage nc pl b w = (.error e, out)) : out = [] := by
  cases w with
  | eagain => simp [sendMessage] at h
  | epipe =>
    have he : sendMessage nc pl b .epipe = (.error EPIPE, []) := rfl
    rw [he] at h
    injection h with h1 h2
    exact h2.symm
  | econnreset =>
    have he : sendMessage nc pl b .econnreset = (.error ECONNRESET, []) := rfl
    rw [he] at h
    injection h with h1 h2
    exact h2.symm
  | wrote n => simp [sendMessage] at h

theorem sessInv_sendStep (st : TcpSession) (w : WriteOutcome) (h : SessInv st) :
    SessInv (sessionSendStep st w).1 := by
  obtain ⟨h1, h2, h3, h4, h5, h6, h7, h8⟩ := h
  cases hwts : st.rpcsWaitingToSend with
  | nil =>
    have hstep : sessionSendStep st w = (st, false) := by
      simp [sessionSendStep, hwts]
    rw [hstep]
    exact ⟨h1, h2, h3, h4, h5, h6, h7, h8⟩
  | cons f rest =>
    obtain ⟨sent, hsub, hmatch⟩ := h8
    rw [hwts] at hmatch
    dsimp only at hmatch
    obtain ⟨hble, hwire⟩ := hmatch
    rw [hwts] at hsub
    have hfmem : rpcPair f ∈ st.submitted := by
      apply hsub.subset
      exact List.mem_append_right _ (by simp)
    cases hsm : sendMessage f.nonce f.request st.bytesLeftToSend w with
    | mk res out =>
      cases res with
      | error e =>
        have hstep : (sessionSendStep st w).1
            = sessionFail { st with wire := st.wire ++ out } writeErrorMsg := by
          simp [sessionSendStep, hwts, hsm]
        rw [hstep]
        have hout : out = [] := sendMessage_error f.nonce f.request st.bytesLeftToSend w e out hsm
        subst hout
        apply sessInv_sessionFail
        · rw [List.perm_iff_count]
          intro a
          have := h3.count_eq a
          simpa [acctNonces, liveNonces, wtsNonces, wfrNonces] using this
        · exact h4
        · exact h5
        · refine ⟨sent, ?_, Or.inr ⟨rpcPair f,
            12 + f.request.length - st.bytesLeftToSend, hfmem, ?_⟩⟩
          · exact (List.sublist_append_left sent _).trans hsub
          · simpa using hwire
      | ok rem =>
        obtain ⟨hremle, hprog⟩ := sendMessage_ok f.nonce f.request st.bytesLeftToSend w hble rem out hsm
        by_cases hz : rem = 0
        · subst hz
          have hstep : (sessionSendStep st w).1 = { st with
              wire := st.wire ++ out,
              rpcsWaitingToSend := rest,
              rpcsWaitingForResponse := st.rpcsWaitingForResponse ++ [{ f with sent := true }],
              bytesLeftToSend := match rest with
                | [] => 0
                | g :: _ => 12 + g.request.length } := by
            simp [sessionSendStep, hwts, hsm]
            cases rest <;> rfl
          rw [hstep]
          have hwires : st.wire ++ out = framesOf (sent ++ [rpcPair f]) := by
            rw [hwire, List.append_assoc, hprog, Nat.sub_zero]
            rw [List.take_of_length_le (le_of_eq (wireFrame_length f.nonce f.request))]
            rw [framesOf_append, framesOf_single]
            rfl
          refine ⟨?_, ?_, ?_, h4, h5, h6, ?_, ?_⟩
          · intro r hr
            exact h1 r (by rw [hwts]; exact List.mem_cons_of_mem f hr)
          · intro r hr
            rcases List.mem_append.mp hr with hr | hr
            · exact h2 r hr
            · simp only [List.mem_singleton] at hr
              subst hr
              rfl
          · have hperm : List.Perm
                (acctNonces { st with
                  wire := st.wire ++ out,
                  rpcsWaitingToSend := rest,
                  rpcsWaitingForResponse :=
                    st.rpcsWaitingForResponse ++ [{ f with sent := true }],
                  bytesLeftToSend := match rest with
                    | [] => 0
                    | g :: _ => 12 + g.request.length })
                (acctNonces st) := by
              rw [List.perm_iff_count]
              intro a
              simp only [acctNonces, liveNonces, wtsNonces, wfrNonces, hwts, List.map_append,
                List.map_cons, List.map_nil, List.count_append, List.count_cons, List.count_nil]
              by_cases hfa : (f.nonce == a) = true
              · simp [hfa]
                omega
              · simp [hfa]
            exact hperm.trans h3
          · intro n hn
            simp only [wfrNonces, List.map_append]
            exact List.mem_append_left _ (h7 n hn)
          · refine ⟨sent ++ [rpcPair f], ?_, ?_⟩
            · show List.Sublist ((sent ++ [rpcPair f]) ++ rest.map rpcPair) st.submitted
              rw [List.append_assoc, List.singleton_append]
              simpa [List.map_cons] using hsub
            · cases rest with
              | nil =>
                show st.wire ++ out = framesOf (sent ++ [rpcPair f]) ∨ _
                exact Or.inl hwires
              | cons g r2 =>
                show (match g :: r2 with
                    | [] => (0 : Nat)
                    | g :: _ => 12 + g.request.length) ≤ 12 + g.request.length ∧
                  st.wire ++ out = framesOf (sent ++ [rpcPair f]) ++
                    (wireFrame g.nonce g.request).take
                      (12 + g.request.length -
                        (match g :: r2 with
                          | [] => (0 : Nat)
                          | g :: _ => 12 + g.request.length))
                dsimp only
                refine ⟨le_refl _, ?_⟩
                rw [Nat.sub_self, List.take_zero, List.append_nil]
                exact hwires
        · have hstep : (sessionSendStep st w).1 = { st with
              wire := st.wire ++ out, bytesLeftToSend := rem } := by
            simp [sessionSendStep, hwts, hsm, hz]
          rw [hstep]
          refine ⟨?_, h2, ?_, h4, h5, h6, h7, ?_⟩
          · intro r hr
            exact h1 r hr
          · rw [List.perm_iff_count]
            intro a
            have := h3.count_eq a
            simpa [acctNonces, liveNonces, wtsNonces, wfrNonces] using this
          · refine ⟨sent, ?_, ?_⟩
            · dsimp only
              rw [hwts]
              exact hsub
            · dsimp only
              rw [hwts]
              refine ⟨le_trans hremle hble, ?_⟩
              rw [hwire, List.append_assoc, hprog]

theorem sessInv_initial : SessInv TcpSession.initial := by
  refine ⟨by simp [TcpSession.initial], by simp [TcpSession.initial], ?_, rfl,
    le_refl 1, fun _ => rfl, ?_, ?_⟩
  · show List.Perm ([] : List Nat) (List.range' 1 0)
    rfl
  · intro n hx
    simp [TcpSession.initial] at hx
  · exact ⟨[], by simp [TcpSession.initial], Or.inl rfl⟩

theorem sessInv_writable (st : TcpSession) (outs : List WriteOutcome) (h : SessInv st) :
    SessInv (sessionWritable st outs) := by
  induction outs generalizing st with
  | nil => exact h
  | cons w ws ih =>
    simp only [sessionWritable]
    by_cases hf : st.fdOpen
    · rw [if_pos hf]
      rcases hstep : sessionSendStep st w with ⟨st1, cont⟩
      have hinv1 : SessInv st1 := by
        have hx := sessInv_sendStep st w h
        rwa [hstep] at hx
      cases cont
      · exact hinv1
      · exact ih st1 hinv1
    · rw [if_neg hf]
      exact h

theorem sessInv_clientSend (st : TcpSession) (req : List Nat) (w : WriteOutcome)
    (h : SessInv st) : SessInv (clientSend st req w).1 := by
  by_cases herr : st.errorInfo.isSome
  · have hx : (clientSend st req w).1 = st := by simp [clientSend, herr]
    rw [hx]
    exact h
  · obtain ⟨h1, h2, h3, h4, h5, h6, h7, h8⟩ := h
    have hof : st.fdOpen = true := by
      apply h6
      cases hev : st.errorInfo with
      | none => rfl
      | some e => rw [hev] at herr; simp at herr
    have hconcat : List.range' 1 st.serial = List.range' 1 (st.serial - 1) ++ [st.serial] := by
      have hx : st.serial - 1 + 1 = st.serial := by omega
      calc List.range' 1 st.serial = List.range' 1 (st.serial - 1 + 1) := by rw [hx]
        _ = List.range' 1 (st.serial - 1) ++ [1 + 1 * (st.serial - 1)] :=
            List.range'_concat _ _
        _ = List.range' 1 (st.serial - 1) ++ [st.serial] := by
            congr 2
            omega
    have hperm2 : List.Perm (acctNonces st ++ [st.serial]) (List.range' 1 st.serial) := by
      rw [hconcat]
      exact h3.append_right _
    by_cases hq : st.rpcsWaitingToSend.isEmpty
    · have hqe : st.rpcsWaitingToSend = [] := by simpa [List.isEmpty_iff] using hq
      have hstep : (clientSend st req w).1 = (sessionSendStep { st with
          serial := st.serial + 1,
          submitted := st.submitted ++ [(st.serial, req)],
          rpcsWaitingToSend := st.rpcsWaitingToSend ++
            [{ nonce := st.serial, request := req, sent := false }],
          bytesLeftToSend := 12 + req.length } w).1 := by
        simp [clientSend, herr, hq]
      rw [hstep]
      apply sessInv_sendStep
      obtain ⟨sent, hsub, hmatch⟩ := h8
      rw [hqe] at hsub hmatch
      dsimp only at hmatch
      have hwire : st.wire = framesOf sent := by
        rcases hmatch with hmatch | ⟨hfd, _⟩
        · exact hmatch
        · rw [hof] at hfd
          cases hfd
      have hsent : List.Sublist sent st.submitted := by
        simpa using hsub
      refine ⟨?_, h2, ?_, ?_, by dsimp only; omega, fun _ => hof, h7, ?_⟩
      · intro r hr
        rw [hqe] at hr
        simp only [List.nil_append, List.mem_singleton] at hr
        subst hr
        rfl
      · rw [List.perm_iff_count]
        intro a
        have hmain := hperm2.count_eq a
        simp only [acctNonces, liveNonces, wtsNonces, wfrNonces, hqe, List.map_append,
          List.map_cons, List.map_nil, List.nil_append, List.append_nil, List.count_append,
          Nat.add_sub_cancel] at hmain ⊢
        omega
      · simp only [List.map_append, h4, Nat.add_sub_cancel, hconcat, List.map_cons,
          List.map_nil]
      · refine ⟨sent, ?_, ?_⟩
        · dsimp only
          rw [hqe]
          simp only [List.nil_append, List.map_cons, List.map_nil]
          have : List.Sublist (sent ++ [(st.serial, req)])
              (st.submitted ++ [(st.serial, req)]) :=
            List.Sublist.append hsent (List.Sublist.refl _)
          exact this
        · dsimp only
          rw [hqe]
          simp only [List.nil_append]
          refine ⟨le_refl _, ?_⟩
          rw [Nat.sub_self, List.take_zero, List.append_nil]
          exact hwire
    · have hqe : st.rpcsWaitingToSend ≠ [] := by
        simpa [List.isEmpty_iff] using hq
      have hstep : (clientSend st req w).1 = { st with
          serial := st.serial + 1,
          submitted := st.submitted ++ [(st.serial, req)],
          rpcsWaitingToSend := st.rpcsWaitingToSend ++
            [{ nonce := st.serial, request := req, sent := false }] } := by
        simp [clientSend, herr, hq]
      rw [hstep]
      obtain ⟨sent, hsub, hmatch⟩ := h8
      refine ⟨?_, h2, ?_, ?_, by dsimp only; omega, fun _ => hof, h7, ?_⟩
      · intro r hr
        rcases List.mem_append.mp hr with hr | hr
        · exact h1 r hr
        · simp only [List.mem_singleton] at hr
          subst hr
          rfl
      · rw [List.perm_iff_count]
        intro a
        have hmain := hperm2.count_eq a
        simp only [acctNonces, liveNonces, wtsNonces, wfrNonces, List.map_append,
          List.map_cons, List.map_nil, List.nil_append, List.append_nil, List.count_append,
          Nat.add_sub_cancel] at hmain ⊢
        omega
      · simp only [List.map_append, h4, Nat.add_sub_cancel, hconcat, List.map_cons,
          List.map_nil]
      · cases hwts : st.rpcsWaitingToSend with
        | nil => exact absurd hwts hqe
        | cons f rest =>
          rw [hwts] at hmatch hsub
          dsimp only at hmatch
          refine ⟨sent, ?_, ?_⟩
          · dsimp only
            rw [List.map_append, ← List.append_assoc]
            exact List.Sublist.append hsub (List.Sublist.refl _)
          · dsimp only [List.cons_append]
            exact hmatch

theorem sessInv_setCurrent (st : TcpSession) (n : Nat) (hmem : n ∈ wfrNonces st)
    (h : SessInv st) : SessInv { st with current := some n } := by
  obtain ⟨h1, h2, h3, h4, h5, h6, h7, h8⟩ := h
  refine ⟨h1, h2, h3, h4, h5, h6, ?_, h8⟩
  intro k hk
  have hkn : n = k := by simpa using hk
  exact hkn ▸ hmem

theorem sessInv_setMessage (st : TcpSession) (m1 : Option IncomingMessage)
    (h : SessInv st) : SessInv { st with message := m1 } := by
  obtain ⟨h1, h2, h3, h4, h5, h6, h7, h8⟩ := h
  exact ⟨h1, h2, h3, h4, h5, h6, h7, h8⟩

theorem sessInv_failAny (st : TcpSession) (msg : String) (h : SessInv st) :
    SessInv (sessionFail st msg) := by
  obtain ⟨h1, h2, h3, h4, h5, h6, h7, h8⟩ := h
  exact sessInv_sessionFail st msg h3 h4 h5 (wireInv_weak st h8)

theorem sessInv_completeCurrent (st : TcpSession) (n : Nat) (hcur : st.current = some n)
    (h : SessInv st) :
    SessInv { st with rpcsWaitingForResponse := removeRpc st.rpcsWaitingForResponse n,
                      completedRpcs := st.completedRpcs ++ [n],
                      current := none, message := none } := by
  obtain ⟨h1, h2, h3, h4, h5, h6, h7, h8⟩ := h
  have hmemw : n ∈ wfrNonces st := h7 n hcur
  have hc1 : 0 < (wfrNonces st).count n := List.count_pos_iff.mpr hmemw
  have hglob : (acctNonces st).count n ≤ 1 := count_le_one_of_perm_range _ _ _ h3 n
  refine ⟨h1, ?_, ?_, h4, h5, h6, ?_, ?_⟩
  · intro r hr
    have hr2 : r ∈ st.rpcsWaitingForResponse := by
      simp only [removeRpc, List.mem_filter] at hr
      exact hr.1
    exact h2 r hr2
  · have hperm : List.Perm
        (acctNonces { st with
          rpcsWaitingForResponse := removeRpc st.rpcsWaitingForResponse n,
          completedRpcs := st.completedRpcs ++ [n],
          current := none, message := none })
        (acctNonces st) := by
      rw [List.perm_iff_count]
      intro a
      simp only [acctNonces, liveNonces, wtsNonces, wfrNonces] at hglob ⊢
      simp only [List.count_append] at hglob ⊢
      simp only [mapNonce_removeRpc, count_filter_ne]
      by_cases ha : a = n
      · subst ha
        simp only [if_pos rfl, List.count_cons, List.count_nil, beq_self_eq_true, if_true]
        simp only [wfrNonces] at hc1
        omega
      · have hna : (n == a) = false := by
          simp only [beq_eq_false_iff_ne]
          exact fun hx => ha hx.symm
        simp only [if_neg ha, List.count_cons, List.count_nil, hna]
        simp
    exact hperm.trans h3
  · intro k hk
    simp at hk
  · exact h8

theorem sessInv_readable (st : TcpSession) (s : Stream) (h : SessInv st) :
    SessInv (sessionReadable st s).1 := by
  by_cases hfd : st.fdOpen
  · rcases hrm : readMessage (some fun n => (wfrNonces st).contains n)
      (st.message.getD IncomingMessage.freshClient) s with ⟨r, m1, s1⟩
    simp only [sessionReadable, if_pos hfd, hrm]
    by_cases hcond : (st.message.getD IncomingMessage.freshClient).headerBytes.length < 12 ∧
        12 ≤ m1.headerBytes.length ∧
        ((wfrNonces st).contains (decodeHeader m1.headerBytes).nonce) = true
    · rw [if_pos hcond]
      have hmem : (decodeHeader m1.headerBytes).nonce ∈ wfrNonces st := by
        have := hcond.2.2
        simpa [List.contains, List.elem_iff] using this
      have hinv1 : SessInv { st with current := some (decodeHeader m1.headerBytes).nonce } :=
        sessInv_setCurrent st _ hmem h
      cases r with
      | Incomplete =>
        try dsimp only
        exact sessInv_setMessage _ _ hinv1
      | Complete =>
        try dsimp only
        by_cases hov : oversized m1 = true
        · rw [if_pos hov]
          try dsimp only
          exact sessInv_failAny _ _ hinv1
        · rw [if_neg hov]
          try dsimp only
          exact sessInv_completeCurrent
            { st with current := some (decodeHeader m1.headerBytes).nonce }
            (decodeHeader m1.headerBytes).nonce rfl hinv1
      | PeerClosed =>
        try dsimp only
        exact sessInv_failAny _ _ hinv1
      | Io e =>
        try dsimp only
        exact sessInv_failAny _ _ hinv1
    · rw [if_neg hcond]
      cases r with
      | Incomplete =>
        try dsimp only
        exact sessInv_setMessage _ _ h
      | Complete =>
        try dsimp only
        by_cases hov : oversized m1 = true
        · rw [if_pos hov]
          try dsimp only
          exact sessInv_failAny _ _ h
        · rw [if_neg hov]
          cases hcur : st.current with
          | none =>
            try dsimp only
            rw [← hcur]
            exact sessInv_setMessage _ _ h
          | some k =>
            try dsimp only
            exact sessInv_completeCurrent _ _ hcur h
      | PeerClosed =>
        try dsimp only
        exact sessInv_failAny _ _ h
      | Io e =>
        try dsimp only
        exact sessInv_failAny _ _ h
  · simp only [sessionReadable, if_neg hfd]
    exact h

theorem sessInv_cancel (st : TcpSession) (n : Nat) (h : SessInv st) :
    SessInv (cancelCleanup st n) := by
  obtain ⟨h1, h2, h3, h4, h5, h6, h7, h8⟩ := h
  have hglob : ∀ a, (acctNonces st).count a ≤ 1 := count_le_one_of_perm_range _ _ _ h3
  by_cases hd : cancelDesync st n = true
  · rw [cancelCleanup, if_pos hd]
    apply sessInv_sessionFail
    · cases hwts : st.rpcsWaitingToSend with
      | nil =>
        rw [cancelDesync, hwts] at hd
        simp at hd
      | cons f rest =>
        rw [cancelDesync, hwts] at hd
        simp only [decide_eq_true_eq] at hd
        obtain ⟨hfn, hblt⟩ := hd
        refine List.Perm.trans ?_ h3
        rw [List.perm_iff_count]
        intro a
        have hg := hglob a
        have hgn := hglob n
        simp only [acctNonces, liveNonces, wtsNonces, wfrNonces, List.count_append]
          at hg hgn ⊢
        rw [hwts] at hg hgn ⊢
        have hcn : 0 < ((f :: rest).map (fun r => r.nonce)).count n := by
          simp [List.count_cons, hfn]
        simp only [mapNonce_removeRpc, count_filter_ne]
        by_cases ha : a = n
        · subst ha
          simp only [if_pos rfl, List.count_cons, List.count_nil, beq_self_eq_true, if_true]
          omega
        · have hna : (n == a) = false := by
            simp only [beq_eq_false_iff_ne]
            exact fun hx => ha hx.symm
          simp only [if_neg ha, List.count_cons, List.count_nil, hna, Bool.false_eq_true,
            if_false]
          omega
    · exact h4
    · exact h5
    · obtain ⟨sent, hsent, hw⟩ := wireInv_weak st h8
      exact ⟨sent, hsent, hw⟩
  · by_cases hc : ((liveNonces st).contains n) = true
    · rw [cancelCleanup, if_neg hd, if_pos hc]
      have hmemL : n ∈ liveNonces st := by
        simpa [List.contains, List.elem_iff] using hc
      have hcl : 0 < (liveNonces st).count n := List.count_pos_iff.mpr hmemL
      refine ⟨?_, ?_, ?_, h4, h5, h6, ?_, ?_⟩
      · intro r hr
        have hr2 : r ∈ st.rpcsWaitingToSend := by
          simp only [removeRpc, List.mem_filter] at hr
          exact hr.1
        exact h1 r hr2
      · intro r hr
        have hr2 : r ∈ st.rpcsWaitingForResponse := by
          simp only [removeRpc, List.mem_filter] at hr
          exact hr.1
        exact h2 r hr2
      · refine List.Perm.trans ?_ h3
        rw [List.perm_iff_count]
        intro a
        have hg := hglob a
        have hgn := hglob n
        simp only [acctNonces, liveNonces, wtsNonces, wfrNonces, List.count_append]
          at hg hgn hcl ⊢
        simp only [mapNonce_removeRpc, count_filter_ne]
        by_cases ha : a = n
        · subst ha
          simp only [if_pos rfl, List.count_cons, List.count_nil, beq_self_eq_true, if_true]
          omega
        · have hna : (n == a) = false := by
            simp only [beq_eq_false_iff_ne]
            exact fun hx => ha hx.symm
          simp only [if_neg ha, List.count_cons, List.count_nil, hna, Bool.false_eq_true,
            if_false]
          omega
      · intro k hk
        try dsimp only at hk
        by_cases hcur : st.current = some n
        · rw [if_pos hcur] at hk
          cases hk
        · rw [if_neg hcur] at hk
          have hkmem := h7 k hk
          have hkn : k ≠ n := by
            intro hx
            apply hcur
            rw [← hx]
            exact hk
          show k ∈ (removeRpc st.rpcsWaitingForResponse n).map (fun r => r.nonce)
          rw [mapNonce_removeRpc]
          refine List.mem_filter.mpr ⟨hkmem, ?_⟩
          simpa using hkn
      · try dsimp only
        obtain ⟨sent, hsub, hmatch⟩ := h8
        cases hwts : st.rpcsWaitingToSend with
        | nil =>
          rw [hwts] at hsub hmatch
          dsimp only at hmatch
          refine ⟨sent, ?_, ?_⟩
          · simp only [removeRpc, List.filter_nil]
            exact hsub
          · simp only [removeRpc, List.filter_nil]
            exact hmatch
        | cons f rest =>
          rw [hwts] at hsub hmatch
          dsimp only at hmatch
          obtain ⟨hble, hwire⟩ := hmatch
          by_cases hfn : f.nonce = n
          · have hbT : st.bytesLeftToSend = 12 + f.request.length := by
              rw [cancelDesync, hwts] at hd
              simp only [decide_eq_true_eq, not_and, not_lt] at hd
              have := hd hfn
              omega
            have hcount1 : (wtsNonces st).count n ≤ 1 := by
              have hg := hglob n
              simp only [acctNonces, liveNonces, List.count_append] at hg
              omega
            have hzero : (rest.map (fun r => r.nonce)).count n = 0 := by
              rw [wtsNonces, hwts] at hcount1
              simp only [List.map_cons, List.count_cons, hfn, beq_self_eq_true,
                if_true] at hcount1
              omega
            have hrest : removeRpc rest n = rest := by
              apply List.filter_eq_self.mpr
              intro r hr
              simp only [bne_iff_ne, ne_eq]
              intro hx
              have hmem2 : n ∈ rest.map (fun r => r.nonce) := List.mem_map.mpr ⟨r, hr, hx⟩
              rw [← List.count_pos_iff] at hmem2
              omega
            have hq2 : removeRpc (f :: rest) n = rest := by
              simp only [removeRpc, List.filter_cons]
              rw [show (f.nonce != n) = false by simp [hfn]]
              simp only [Bool.false_eq_true, if_false]
              exact hrest
            have hwire0 : st.wire = framesOf sent := by
              rw [hwire, hbT, Nat.sub_self, List.take_zero, List.append_nil]
            refine ⟨sent, ?_, ?_⟩
            · try dsimp only
              rw [hq2]
              have hsubrest : List.Sublist (sent ++ rest.map rpcPair)
                  (sent ++ (f :: rest).map rpcPair) := by
                apply List.Sublist.append_left
                simp only [List.map_cons]
                exact List.sublist_cons_self _ _
              exact hsubrest.trans hsub
            · try dsimp only
              rw [hq2, if_pos hfn]
              cases rest with
              | nil => exact Or.inl hwire0
              | cons g r2 =>
                try dsimp only
                refine ⟨le_refl _, ?_⟩
                rw [Nat.sub_self, List.take_zero, List.append_nil]
                exact hwire0
          · have hq2 : removeRpc (f :: rest) n = f :: removeRpc rest n := by
              simp only [removeRpc, List.filter_cons]
              rw [show (f.nonce != n) = true by simp [hfn]]
              simp
            refine ⟨sent, ?_, ?_⟩
            · try dsimp only
              rw [hq2]
              have hsubx : List.Sublist (sent ++ (f :: removeRpc rest n).map rpcPair)
                  (sent ++ (f :: rest).map rpcPair) := by
                apply List.Sublist.append_left
                simp only [List.map_cons]
                exact List.Sublist.cons₂ _ ((List.filter_sublist _).map rpcPair)
              exact hsubx.trans hsub
            · try dsimp only
              rw [hq2, if_neg hfn]
              exact ⟨hble, hwire⟩
    · rw [cancelCleanup, if_neg hd, if_neg hc]
      exact ⟨h1, h2, h3, h4, h5, h6, h7, h8⟩

theorem reach_sessInv (st : TcpSession) (h : Reach st) : SessInv st := by
  induction h with
  | init => exact sessInv_initial
  | send st req w _ ih => exact sessInv_clientSend st req w ih
  | writable st outs _ ih => exact sessInv_writable st outs ih
  | readable st s _ ih => exact sessInv_readable st s ih
  | cancel st n _ ih => exact sessInv_cancel st n ih

theorem sessionSendStep_serial (st : TcpSession) (w : WriteOutcome) :
    (sessionSendStep st w).1.serial = st.serial := by
  cases hwts : st.rpcsWaitingToSend with
  | nil => simp [sessionSendStep, hwts]
  | cons f rest =>
    simp only [sessionSendStep, hwts]
    rcases hsm : sendMessage f.nonce f.request st.bytesLeftToSend w with ⟨res, out⟩
    cases res with
    | error e => simp [sessionFail]
    | ok rem =>
      by_cases hz : rem = 0
      · simp [hz]
      · simp [hz]

theorem sessionSendStep_errorInfo (st : TcpSession) (w : WriteOutcome) :
    ((sessionSendStep st w).1.errorInfo = st.errorInfo) ∨
    (∃ m, (sessionSendStep st w).1.errorInfo = some m) := by
  cases hwts : st.rpcsWaitingToSend with
  | nil => simp [sessionSendStep, hwts]
  | cons f rest =>
    simp only [sessionSendStep, hwts]
    rcases hsm : sendMessage f.nonce f.request st.bytesLeftToSend w with ⟨res, out⟩
    cases res with
    | error e =>
      right
      exact ⟨writeErrorMsg, by simp [sessionFail]⟩
    | ok rem =>
      by_cases hz : rem = 0
      · left
        simp [hz]
      · left
        simp [hz]

theorem sessionWritable_errorInfo (st : TcpSession) (outs : List WriteOutcome) :
    ((sessionWritable st outs).errorInfo = st.errorInfo) ∨
    (∃ m, (sessionWritable st outs).errorInfo = some m) := by
  induction outs generalizing st with
  | nil => exact Or.inl rfl
  | cons w ws ih =>
    simp only [sessionWritable]
    by_cases hf : st.fdOpen
    · rw [if_pos hf]
      rcases hstep : sessionSendStep st w with ⟨st1, cont⟩
      have hstepinfo := sessionSendStep_errorInfo st w
      rw [hstep] at hstepinfo
      cases cont
      · simpa using hstepinfo
      · rcases ih st1 with hih | ⟨m, hih⟩
        · rcases hstepinfo with hs | ⟨m, hs⟩
          · exact Or.inl (by rw [hih, hs])
          · exact Or.inr ⟨m, by rw [hih]; exact hs⟩
        · exact Or.inr ⟨m, hih⟩
    · rw [if_neg hf]
      exact Or.inl rfl

theorem sessionReadable_errorInfo (st : TcpSession) (s : Stream) :
    ((sessionReadable st s).1.errorInfo = st.errorInfo) ∨
    (∃ m, (sessionReadable st s).1.errorInfo = some m) := by
  by_cases hfd : st.fdOpen
  · rcases hrm : readMessage (some fun n => (wfrNonces st).contains n)
      (st.message.getD IncomingMessage.freshClient) s with ⟨r, m1, s1⟩
    simp only [sessionReadable, if_pos hfd, hrm]
    by_cases hcond : (st.message.getD IncomingMessage.freshClient).headerBytes.length < 12 ∧
        12 ≤ m1.headerBytes.length ∧
        ((wfrNonces st).contains (decodeHeader m1.headerBytes).nonce) = true
    · rw [if_pos hcond]
      cases r with
      | Incomplete => exact Or.inl rfl
      | Complete =>
        by_cases hov : oversized m1 = true
        · rw [if_pos hov]
          exact Or.inr ⟨protocolViolationMsg, by simp [sessionFail]⟩
        · rw [if_neg hov]
          try dsimp only
          exact Or.inl rfl
      | PeerClosed => exact Or.inr ⟨peerClosedMsg, by simp [sessionFail]⟩
      | Io e => exact Or.inr ⟨readErrorMsg, by simp [sessionFail]⟩
    · rw [if_neg hcond]
      cases r with
      | Incomplete => exact Or.inl rfl
      | Complete =>
        by_cases hov : oversized m1 = true
        · rw [if_pos hov]
          exact Or.inr ⟨protocolViolationMsg, by simp [sessionFail]⟩
        · rw [if_neg hov]
          cases hcur : st.current with
          | none => exact Or.inl rfl
          | some k => exact Or.inl rfl
      | PeerClosed => exact Or.inr ⟨peerClosedMsg, by simp [sessionFail]⟩
      | Io e => exact Or.inr ⟨readErrorMsg, by simp [sessionFail]⟩
  · simp [sessionReadable, hfd]

theorem cancelCleanup_errorInfo (st : TcpSession) (n : Nat) :
    ((cancelCleanup st n).errorInfo = st.errorInfo) ∨
    (∃ m, (cancelCleanup st n).errorInfo = some m) := by
  rw [cancelCleanup]
  by_cases hd : cancelDesync st n = true
  · rw [if_pos hd]
    exact Or.inr ⟨cancelMidSendMsg, by simp [sessionFail]⟩
  · rw [if_neg hd]
    by_cases hc : ((liveNonces st).contains n) = true
    · rw [if_pos hc]
      exact Or.inl rfl
    · rw [if_neg hc]
      exact Or.inl rfl

theorem clientSend_on_error (st : TcpSession) (req : List Nat) (w : WriteOutcome)
    (h : st.errorInfo.isSome = true) :
    clientSend st req w = (st, .error sessionUnusableMsg) := by
  simp [clientSend, h]

/-! ## Server socket reply-order machinery -/

theorem sockInv_initial : SockInv Socket.initial := by
  refine ⟨[], by simp [Socket.initial], ?_⟩
  exact Or.inl rfl

theorem sockInv_fail (sk : Socket) (h : SockInv sk) : SockInv (socketFail sk) := by
  obtain ⟨sent, hsub, hmatch⟩ := h
  have hsent : List.Sublist sent sk.replyCalls :=
    (List.sublist_append_left sent _).trans hsub
  refine ⟨sent, ?_, ?_⟩
  · show List.Sublist (sent ++ List.map srvPair []) sk.replyCalls
    simpa using hsent
  · show sk.wire = framesOf sent ∨ ((false : Bool) = false ∧ ∃ p k, p ∈ sk.replyCalls ∧
      sk.wire = framesOf sent ++ (wireFrame p.1 p.2).take k)
    cases hq : sk.rpcsWaitingToReply with
    | nil =>
      rw [hq] at hmatch
      dsimp only at hmatch
      rcases hmatch with hm | ⟨_, p, k, hp, heq⟩
      · exact Or.inl hm
      · exact Or.inr ⟨rfl, p, k, hp, heq⟩
    | cons f rest =>
      rw [hq] at hmatch hsub
      dsimp only at hmatch
      refine Or.inr ⟨rfl, srvPair f, 12 + f.replyPayload.length - sk.bytesLeftToSend, ?_,
        hmatch.2⟩
      apply hsub.subset
      exact List.mem_append_right _ (by simp)

theorem sockInv_sendStep (sk : Socket) (w : WriteOutcome) (h : SockInv sk) :
    SockInv (socketSendStep sk w).1 := by
  obtain ⟨sent, hsub, hmatch⟩ := h
  cases hwts : sk.rpcsWaitingToReply with
  | nil =>
    have hstep : socketSendStep sk w = (sk, false) := by
      simp [socketSendStep, hwts]
    rw [hstep]
    exact ⟨sent, hsub, hmatch⟩
  | cons f rest =>
    rw [hwts] at hmatch hsub
    dsimp only at hmatch
    obtain ⟨hble, hwire⟩ := hmatch
    have hfmem : srvPair f ∈ sk.replyCalls := by
      apply hsub.subset
      exact List.mem_append_right _ (by simp)
    cases hsm : sendMessage f.nonce f.replyPayload sk.bytesLeftToSend w with
    | mk res out =>
      cases res with
      | error e =>
        have hstep : (socketSendStep sk w).1
            = socketFail { sk with wire := sk.wire ++ out } := by
          simp [socketSendStep, hwts, hsm]
        rw [hstep]
        have hout : out = [] :=
          sendMessage_error f.nonce f.replyPayload sk.bytesLeftToSend w e out hsm
        subst hout
        refine ⟨sent, ?_, ?_⟩
        · show List.Sublist (sent ++ List.map srvPair []) sk.replyCalls
          simpa using (List.sublist_append_left sent _).trans hsub
        · show sk.wire ++ [] = framesOf sent ∨ ((false : Bool) = false ∧
            ∃ p k, p ∈ sk.replyCalls ∧ sk.wire ++ [] = framesOf sent ++
              (wireFrame p.1 p.2).take k)
          refine Or.inr ⟨rfl, srvPair f,
            12 + f.replyPayload.length - sk.bytesLeftToSend, hfmem, ?_⟩
          simpa using hwire
      | ok rem =>
        obtain ⟨hremle, hprog⟩ :=
          sendMessage_ok f.nonce f.replyPayload sk.bytesLeftToSend w hble rem out hsm
        by_cases hz : rem = 0
        · subst hz
          have hstep : (socketSendStep sk w).1 = { sk with
              wire := sk.wire ++ out,
              rpcsWaitingToReply := rest,
              bytesLeftToSend := match rest with
                | [] => 0
                | g :: _ => 12 + g.replyPayload.length } := by
            simp [socketSendStep, hwts, hsm]
            cases rest <;> rfl
          rw [hstep]
          have hwires : sk.wire ++ out = framesOf (sent ++ [srvPair f]) := by
            rw [hwire, List.append_assoc, hprog, Nat.sub_zero]
            rw [List.take_of_length_le (le_of_eq (wireFrame_length f.nonce f.replyPayload))]
            rw [framesOf_append, framesOf_single]
            rfl
          refine ⟨sent ++ [srvPair f], ?_, ?_⟩
          · show List.Sublist ((sent ++ [srvPair f]) ++ rest.map srvPair) sk.replyCalls
            rw [List.append_assoc, List.singleton_append]
            simpa [List.map_cons] using hsub
          · cases rest with
            | nil =>
              show sk.wire ++ out = framesOf (sent ++ [srvPair f]) ∨ _
              exact Or.inl hwires
            | cons g r2 =>
              try dsimp only
              refine ⟨le_refl _, ?_⟩
              rw [Nat.sub_self, List.take_zero, List.append_nil]
              exact hwires
        · have hstep : (socketSendStep sk w).1 = { sk with
              wire := sk.wire ++ out, bytesLeftToSend := rem } := by
            simp [socketSendStep, hwts, hsm, hz]
          rw [hstep]
          refine ⟨sent, ?_, ?_⟩
          · dsimp only
            rw [hwts]
            exact hsub
          · dsimp only
            rw [hwts]
            refine ⟨le_trans hremle hble, ?_⟩
            rw [hwire, List.append_assoc, hprog]

theorem sockInv_writable (sk : Socket) (outs : List WriteOutcome) (h : SockInv sk) :
    SockInv (socketWritable sk outs) := by
  induction outs generalizing sk with
  | nil => exact h
  | cons w ws ih =>
    simp only [socketWritable]
    by_cases hf : sk.fdOpen
    · rw [if_pos hf]
      rcases hstep : socketSendStep sk w with ⟨sk1, cont⟩
      have hinv1 : SockInv sk1 := by
        have hx := sockInv_sendStep sk w h
        rwa [hstep] at hx
      cases cont
      · exact hinv1
      · exact ih sk1 hinv1
    · rw [if_neg hf]
      exact h

theorem sockInv_sendReply (sk : Socket) (nonce : Nat) (rp : List Nat) (w : WriteOutcome)
    (h : SockInv sk) : SockInv (sendReply sk nonce rp w) := by
  by_cases hfd : sk.fdOpen
  · obtain ⟨sent, hsub, hmatch⟩ := h
    by_cases hq : sk.rpcsWaitingToReply.isEmpty
    · have hqe : sk.rpcsWaitingToReply = [] := by simpa [List.isEmpty_iff] using hq
      rw [hqe] at hsub hmatch
      dsimp only at hmatch
      have hwire : sk.wire = framesOf sent := by
        rcases hmatch with hm | ⟨hfo, _⟩
        · exact hm
        · rw [hfd] at hfo
          cases hfo
      have hsent : List.Sublist sent sk.replyCalls := by
        simpa using hsub
      have hstep : sendReply sk nonce rp w = (socketSendStep { sk with
          replyCalls := sk.replyCalls ++ [(nonce, rp)],
          rpcsWaitingToReply := [⟨nonce, rp⟩],
          bytesLeftToSend := 12 + rp.length } w).1 := by
        simp [sendReply, hfd, hq]
      rw [hstep]
      apply sockInv_sendStep
      refine ⟨sent, ?_, ?_⟩
      · dsimp only
        simp only [List.map_cons, List.map_nil]
        exact List.Sublist.append hsent (List.Sublist.refl _)
      · dsimp only
        refine ⟨le_refl _, ?_⟩
        rw [Nat.sub_self, List.take_zero, List.append_nil]
        exact hwire
    · have hqe : sk.rpcsWaitingToReply ≠ [] := by simpa [List.isEmpty_iff] using hq
      have hstep : sendReply sk nonce rp w = { sk with
          replyCalls := sk.replyCalls ++ [(nonce, rp)],
          rpcsWaitingToReply := sk.rpcsWaitingToReply ++ [⟨nonce, rp⟩] } := by
        simp [sendReply, hfd, hq]
      rw [hstep]
      cases hwts : sk.rpcsWaitingToReply with
      | nil => exact absurd hwts hqe
      | cons f rest =>
        rw [hwts] at hmatch hsub
        dsimp only at hmatch
        refine ⟨sent, ?_, ?_⟩
        · dsimp only
          rw [List.map_append, ← List.append_assoc]
          exact List.Sublist.append hsub (List.Sublist.refl _)
        · dsimp only [List.cons_append]
          exact hmatch
  · have hstep : sendReply sk nonce rp w = sk := by
      simp [sendReply, hfd]
    rw [hstep]
    exact h

theorem sockReach_inv (sk : Socket) (h : SockReach sk) : SockInv sk := by
  induction h with
  | init => exact sockInv_initial
  | reply sk nonce rp w _ ih => exact sockInv_sendReply sk nonce rp w ih
  | writable sk outs _ ih => exact sockInv_writable sk outs ih
  | closeOnError sk _ ih => exact sockInv_fail sk ih

/-! ## Queue partition and nonce freshness -/

theorem sessInv_queuePartition (st : TcpSession) (h : SessInv st) : QueuePartition st := by
  obtain ⟨h1, h2, h3, h4, h5, h6, h7, h8⟩ := h
  have hnd : (acctNonces st).Nodup := h3.nodup_iff.mpr (List.nodup_range' _ _)
  refine ⟨h1, h2, ?_, ?_⟩
  · refine List.Nodup.sublist ?_ hnd
    simp only [acctNonces]
    exact ((List.sublist_append_left _ _).trans
      (List.sublist_append_left _ _)).trans (List.sublist_append_left _ _)
  · rw [h4]
    exact h3

theorem sockInv_weak (sk : Socket) (h : SockInv sk) :
    ∃ sent, List.Sublist sent sk.replyCalls ∧
      (sk.wire = framesOf sent ∨ ∃ p k, p ∈ sk.replyCalls ∧
        sk.wire = framesOf sent ++ (wireFrame p.1 p.2).take k) := by
  obtain ⟨sent, hsub, hm⟩ := h
  have hsent : List.Sublist sent sk.replyCalls :=
    (List.sublist_append_left sent _).trans hsub
  cases hq : sk.rpcsWaitingToReply with
  | nil =>
    rw [hq] at hm
    dsimp only at hm
    rcases hm with hm | ⟨_, p, k, hp, heq⟩
    · exact ⟨sent, hsent, Or.inl hm⟩
    · exact ⟨sent, hsent, Or.inr ⟨p, k, hp, heq⟩⟩
  | cons f r =>
    rw [hq] at hm
    dsimp only at hm
    refine ⟨sent, hsent, Or.inr ⟨srvPair f,
      12 + f.replyPayload.length - sk.bytesLeftToSend, ?_, hm.2⟩⟩
    have hmem : srvPair f ∈ sent ++ (sk.rpcsWaitingToReply.map srvPair) := by
      rw [hq]
      exact List.mem_append_right _ (by simp)
    exact hsub.subset hmem

/-- Claim C2: on every reachable session state, nonces are issued by a
monotonic counter: `serial` starts at 1 on a fresh session, every live RPC
carries a nonce in `[1, serial)` and no two live RPCs share a nonce, and a
successful `clientSend` hands out exactly the current `serial` and bumps the
counter by one (so nonces are strictly increasing in `clientSend` order and
the first RPC of a fresh session carries nonce 1). -/
theorem tcp_nonce_fresh_and_increasing (st : TcpSession) (h : Reach st) :
    TcpSession.initial.serial = 1 ∧
    1 ≤ st.serial ∧
    (liveNonces st).Nodup ∧
    (∀ n ∈ liveNonces st, 1 ≤ n ∧ n < st.serial) ∧
    (∀ req w st1 n, st.errorInfo = none →
      clientSend st req w = (st1, Except.ok n) →
      n = st.serial ∧ st1.serial = st.serial + 1) := by
  obtain ⟨h1, h2, h3, h4, h5, h6, h7, h8⟩ := reach_sessInv st h
  have hnd : (acctNonces st).Nodup := h3.nodup_iff.mpr (List.nodup_range' _ _)
  have hlive : (liveNonces st).Nodup := by
    refine List.Nodup.sublist ?_ hnd
    simp only [acctNonces]
    exact ((List.sublist_append_left _ _).trans
      (List.sublist_append_left _ _)).trans (List.sublist_append_left _ _)
  refine ⟨rfl, h5, hlive, ?_, ?_⟩
  · intro n hn
    have hacct : n ∈ acctNonces st := by
      simp only [acctNonces]
      exact List.mem_append_left _ (List.mem_append_left _ (List.mem_append_left _ hn))
    have hr : n ∈ List.range' 1 (st.serial - 1) := h3.mem_iff.mp hacct
    have hb := List.mem_range'_1.mp hr
    omega
  · intro req w st1 n herr hcall
    rw [clientSend] at hcall
    simp only [herr, Option.isSome_none, Bool.false_eq_true, if_false] at hcall
    by_cases hwe : st.rpcsWaitingToSend.isEmpty
    · rw [if_pos hwe] at hcall
      injection hcall with hA hB
      injection hB with hB
      subst hB
      refine ⟨rfl, ?_⟩
      rw [← hA, sessionSendStep_serial]
    · rw [if_neg hwe] at hcall
      injection hcall with hA hB
      injection hB with hB
      subst hB
      refine ⟨rfl, ?_⟩
      rw [← hA]

/-- Claim C4: on every reachable session state, each live RPC is linked into
exactly one of `rpcsWaitingToSend` and `rpcsWaitingForResponse` (its nonce
appears once across the two queues and each allocated nonce is live,
completed, failed or cancelled -- exactly one of the four), the `sent` flag
is false exactly on the send queue, and every session operation
(`clientSend`, the `WRITABLE` handler, the `READABLE` handler,
`cancelCleanup`) preserves this partition. -/
theorem tcp_client_rpc_queue_partition (st : TcpSession) (h : Reach st) :
    QueuePartition st ∧
    (∀ req w, QueuePartition (clientSend st req w).1) ∧
    (∀ outs, QueuePartition (sessionWritable st outs)) ∧
    (∀ s, QueuePartition (sessionReadable st s).1) ∧
    (∀ n, QueuePartition (cancelCleanup st n)) := by
  have hinv := reach_sessInv st h
  exact ⟨sessInv_queuePartition st hinv,
    fun req w => sessInv_queuePartition _ (sessInv_clientSend st req w hinv),
    fun outs => sessInv_queuePartition _ (sessInv_writable st outs hinv),
    fun s => sessInv_queuePartition _ (sessInv_readable st s hinv),
    fun n => sessInv_queuePartition _ (sessInv_cancel st n hinv)⟩

/-- Claim C6: on every reachable session state the wire holds the request
frames of an order-preserving subsequence of the `clientSend` calls (plus at
most a prefix of one in-flight frame), so request frames reach the wire in
`clientSend` order; symmetrically, on every reachable server connection the
wire holds the reply frames of an order-preserving subsequence of the
`sendReply` calls (plus at most a prefix of one in-flight frame). -/
theorem tcp_wire_order_fifo (st : TcpSession) (sk : Socket)
    (hc : Reach st) (hs : SockReach sk) :
    (∃ sentReq leftover, List.Sublist sentReq st.submitted ∧
        st.wire = framesOf sentReq ++ leftover ∧
        (leftover = [] ∨ ∃ p k, p ∈ st.submitted ∧
          leftover = (wireFrame p.1 p.2).take k)) ∧
    (∃ sentRep leftover, List.Sublist sentRep sk.replyCalls ∧
        sk.wire = framesOf sentRep ++ leftover ∧
        (leftover = [] ∨ ∃ p k, p ∈ sk.replyCalls ∧
          leftover = (wireFrame p.1 p.2).take k)) := by
  have h8 : WireInv st := (reach_sessInv st hc).2.2.2.2.2.2.2
  obtain ⟨s1, hs1, hw1⟩ := wireInv_weak st h8
  obtain ⟨s2, hs2, hw2⟩ := sockInv_weak sk (sockReach_inv sk hs)
  constructor
  · rcases hw1 with hw | ⟨p, k, hp, he⟩
    · exact ⟨s1, [], hs1, by simpa using hw, Or.inl rfl⟩
    · exact ⟨s1, (wireFrame p.1 p.2).take k, hs1, he, Or.inr ⟨p, k, hp, rfl⟩⟩
  · rcases hw2 with hw | ⟨p, k, hp, he⟩
    · exact ⟨s2, [], hs2, by simpa using hw, Or.inl rfl⟩
    · exact ⟨s2, (wireFrame p.1 p.2).take k, hs2, he, Or.inr ⟨p, k, hp, rfl⟩⟩

/-! ## Fatal errors and the remaining claims -/

theorem sessionReadable_peerClosed (stf : TcpSession) (hfd : stf.fdOpen = true)
    (hmsg : stf.message = none) :
    sessionReadable stf ⟨[], FdStatus.closed⟩
      = (sessionFail stf peerClosedMsg, ⟨[], FdStatus.closed⟩) := by
  have hHL : headerLoop [] ⟨[], FdStatus.closed⟩
      = (.peerClosed, [], ⟨[], FdStatus.closed⟩) := by
    have h := headerLoop_spec [] ⟨[], FdStatus.closed⟩ (by simp)
    simpa using h
  have hRM : readMessage (some fun n => (wfrNonces stf).contains n)
      IncomingMessage.freshClient ⟨[], FdStatus.closed⟩
      = (.PeerClosed, IncomingMessage.freshClient, ⟨[], FdStatus.closed⟩) := by
    simp only [readMessage, IncomingMessage.freshClient, List.length_nil]
    rw [if_pos (by norm_num), hHL]
  simp only [sessionReadable, hfd, if_pos, hmsg, Option.getD_none, hRM]
  rw [if_neg (by simp [IncomingMessage.freshClient])]

/-- Claim C7: once a session's `errorInfo` is set the session is permanently
unusable: `clientSend` fails synchronously with the session-unusable error,
and none of the session operations (`clientSend`, the `WRITABLE` handler,
the `READABLE` handler, `cancelCleanup`) ever clears `errorInfo`; and the
error is entered as specified: on `PeerClosed` (here: reading a cleanly
closed stream) the session sets `errorInfo`, closes its fd, and fails every
RPC in both queues. -/
theorem tcp_error_info_permanent (st stf : TcpSession) (req : List Nat)
    (w : WriteOutcome) (outs : List WriteOutcome) (s : Stream) (n : Nat)
    (he : st.errorInfo.isSome = true) (hfd : stf.fdOpen = true)
    (hmsg : stf.message = none) :
    clientSend st req w = (st, Except.error sessionUnusableMsg) ∧
    (clientSend st req w).1.errorInfo.isSome = true ∧
    (sessionWritable st outs).errorInfo.isSome = true ∧
    (sessionReadable st s).1.errorInfo.isSome = true ∧
    (cancelCleanup st n).errorInfo.isSome = true ∧
    (sessionReadable stf ⟨[], FdStatus.closed⟩).1 = sessionFail stf peerClosedMsg ∧
    (sessionFail stf peerClosedMsg).errorInfo = some peerClosedMsg ∧
    (sessionFail stf peerClosedMsg).fdOpen = false ∧
    (sessionFail stf peerClosedMsg).rpcsWaitingToSend = [] ∧
    (sessionFail stf peerClosedMsg).rpcsWaitingForResponse = [] ∧
    (sessionFail stf peerClosedMsg).failedRpcs = stf.failedRpcs ++ liveNonces stf := by
  have hcs := clientSend_on_error st req w he
  refine ⟨hcs, by rw [hcs]; exact he, ?_, ?_, ?_,
    by rw [sessionReadable_peerClosed stf hfd hmsg], rfl, rfl, rfl, rfl, rfl⟩
  · rcases sessionWritable_errorInfo st outs with hx | ⟨m, hx⟩
    · rw [hx]; exact he
    · rw [hx]; rfl
  · rcases sessionReadable_errorInfo st s with hx | ⟨m, hx⟩
    · rw [hx]; exact he
    · rw [hx]; rfl
  · rcases cancelCleanup_errorInfo st n with hx | ⟨m, hx⟩
    · rw [hx]; exact he
    · rw [hx]; rfl

/-- Claim C8: a send/receive round trip is the identity on payloads: for a
request payload whose length lies in
`{0, 1, 12, 13, 8191, 8192, 8193, MAX_RPC_LEN}`, writing the frame with
`sendMessage`, reading it back with a server-side `IncomingMessage`,
echoing, and reading the echo with a client-side `IncomingMessage` yields a
reply buffer byte-for-byte equal to the request payload. -/
theorem tcp_round_trip_identity (nonce : Nat) (payload : List Nat)
    (hn : nonce < 2 ^ 64)
    (hL : payload.length = 0 ∨ payload.length = 1 ∨ payload.length = 12 ∨
      payload.length = 13 ∨ payload.length = 8191 ∨ payload.length = 8192 ∨
      payload.length = 8193 ∨ payload.length = MAX_RPC_LEN) :
    roundTrip nonce payload = some payload := by
  refine roundTrip_identity_core nonce payload hn ?_
  have hM : MAX_RPC_LEN = 1048576 := rfl
  rcases hL with h | h | h | h | h | h | h | h <;> omega

/-- Claim C9: whenever `serverRecv` is called on a manager with no listening
transport configured (the manager was never initialized, or its `listening`
list is empty), it raises `UnrecoverableTransportException` with the
no-transports message instead of polling or returning a request. -/
theorem tcp_server_recv_no_listeners (tm : TransportManager) (fuel : Nat)
    (h : tm.initialized = false ∨ tm.listening = []) :
    tm.serverRecv fuel = (RecvOutcome.unrecoverable noListenMsg, tm) := by
  rcases h with h | h
  · simp [TransportManager.serverRecv, h]
  · simp [TransportManager.serverRecv, h]

theorem initFactory_nil_listening (fs : List TransportFactory) (tm : TransportManager) :
    (fs.foldl (initFactory []) tm).listening = tm.listening := by
  induction fs generalizing tm with
  | nil => rfl
  | cons f fs ih =>
    rw [List.foldl_cons, ih]
    rfl

/-- Claim C10: calling `getSession` on a manager on which `initialize` was
never called first self-initializes the manager with the empty locator
string (the transports are constructed client-only, so nothing new is
listening), after which the session lookup proceeds normally -- `getSession`
never fails merely because `initialize` was skipped; and the `initialized`
flag is set at most once: any further `initialize` call on the initialized
manager fails its assertion. -/
theorem tcp_get_session_self_initializes (tm : TransportManager)
    (locs : List ServiceLocator) (h : tm.initialized = false) :
    ∃ tm1, tm.initialize [] = some tm1 ∧
      tm.getSession locs = (tm1, locs.findSome? (fun loc => tryLocator tm1 loc)) ∧
      tm1.initialized = true ∧
      tm1.listening = tm.listening ∧
      (∀ locs2, tm1.initialize locs2 = none) := by
  refine ⟨{ (tm.factories.foldl (initFactory []) tm) with initialized := true },
    ?_, ?_, rfl, ?_, ?_⟩
  · simp [ TransportManager.initialize, h]
  · simp [TransportManager.getSession,  TransportManager.initialize, h]
  · exact initFactory_nil_listening _ _
  · intro locs2
    rfl

/-! ## Concrete instantiations of the claim theorems -/

theorem tcp_read_message_outcomes_witness :
    IncomingMessage.freshServer.headerBytes.length ≤ 12 ∧
    IncomingMessage.freshServer.messageBytesReceived
      ≤ IncomingMessage.freshServer.messageLength ∧
    (((readMessage none IncomingMessage.freshServer ⟨[], FdStatus.active⟩).1 = .Complete ↔
      ((readMessage none IncomingMessage.freshServer
          ⟨[], FdStatus.active⟩).2.1.headerBytesReceived = 12 ∧
       (readMessage none IncomingMessage.freshServer
          ⟨[], FdStatus.active⟩).2.1.messageBytesReceived =
         (readMessage none IncomingMessage.freshServer
          ⟨[], FdStatus.active⟩).2.1.messageLength)) ∧
    ((⟨[], FdStatus.active⟩ : Stream).status = .active →
      (readMessage none IncomingMessage.freshServer ⟨[], FdStatus.active⟩).1 = .Incomplete ∨
      (readMessage none IncomingMessage.freshServer ⟨[], FdStatus.active⟩).1 = .Complete) ∧
    ((readMessage none IncomingMessage.freshServer ⟨[], FdStatus.active⟩).1 = .Incomplete →
      (⟨[], FdStatus.active⟩ : Stream).status = .active) ∧
    ((readMessage none IncomingMessage.freshServer ⟨[], FdStatus.active⟩).1 = .PeerClosed ↔
      ((⟨[], FdStatus.active⟩ : Stream).status = .closed ∧
       IncomingMessage.freshServer.headerBytes = [] ∧
       (⟨[], FdStatus.active⟩ : Stream).pending = [])) ∧
    ((⟨[], FdStatus.active⟩ : Stream).status = .closed →
      ¬(IncomingMessage.freshServer.headerBytes = [] ∧
        (⟨[], FdStatus.active⟩ : Stream).pending = []) →
      (readMessage none IncomingMessage.freshServer ⟨[], FdStatus.active⟩).1 ≠ .Complete →
      (readMessage none IncomingMessage.freshServer ⟨[], FdStatus.active⟩).1 = .Io 0) ∧
    ((readMessage none IncomingMessage.freshServer ⟨[], FdStatus.active⟩).1 = .Incomplete ∨
      (readMessage none IncomingMessage.freshServer ⟨[], FdStatus.active⟩).1 = .Complete ∨
      (readMessage none IncomingMessage.freshServer ⟨[], FdStatus.active⟩).1 = .PeerClosed ∨
      ∃ e, (readMessage none IncomingMessage.freshServer ⟨[], FdStatus.active⟩).1 = .Io e)) :=
  ⟨by decide, by decide,
   tcp_read_message_outcomes none IncomingMessage.freshServer ⟨[], FdStatus.active⟩
     (by decide) (by decide)⟩

theorem tcp_send_message_unsent_count_witness :
    (15 : Nat) ≤ 12 + [1, 2, 3].length ∧
    ((WriteOutcome.wrote 4 = .eagain →
        sendMessage 2 [1, 2, 3] 15 (.wrote 4) = (.ok 15, [])) ∧
     (WriteOutcome.wrote 4 = .epipe →
        sendMessage 2 [1, 2, 3] 15 (.wrote 4) = (.error EPIPE, [])) ∧
     (WriteOutcome.wrote 4 = .econnreset →
        sendMessage 2 [1, 2, 3] 15 (.wrote 4) = (.error ECONNRESET, [])) ∧
     (∀ n, WriteOutcome.wrote 4 = .wrote n →
        sendMessage 2 [1, 2, 3] 15 (.wrote 4) =
          (.ok (15 - min n 15),
           ((wireFrame 2 [1, 2, 3]).drop ((wireFrame 2 [1, 2, 3]).length - 15)).take
             (min n 15)) ∧
        (wireFrame 2 [1, 2, 3]).take ((wireFrame 2 [1, 2, 3]).length - 15) ++
            (sendMessage 2 [1, 2, 3] 15 (.wrote 4)).2
          = (wireFrame 2 [1, 2, 3]).take
              ((wireFrame 2 [1, 2, 3]).length - (15 - min n 15)) ∧
        ((wireFrame 2 [1, 2, 3]).drop
            ((wireFrame 2 [1, 2, 3]).length - (15 - min n 15))).length = 15 - min n 15)) :=
  ⟨by decide, tcp_send_message_unsent_count 2 [1, 2, 3] 15 (.wrote 4) (by decide)⟩

theorem tcp_oversized_header_discards_and_closes_witness :
    (7 : Nat) < 2 ^ 64 ∧ MAX_RPC_LEN + 1 < 2 ^ 32 ∧ MAX_RPC_LEN < MAX_RPC_LEN + 1 ∧
    (List.replicate MAX_RPC_LEN 0).length = min (MAX_RPC_LEN + 1) MAX_RPC_LEN ∧
    ((readMessage none IncomingMessage.freshClient
        ⟨encodeHeader 7 (MAX_RPC_LEN + 1) ++ (List.replicate MAX_RPC_LEN 0 ++ []),
         FdStatus.active⟩).1 = .Complete ∧
     (readMessage none IncomingMessage.freshClient
        ⟨encodeHeader 7 (MAX_RPC_LEN + 1) ++ (List.replicate MAX_RPC_LEN 0 ++ []),
         FdStatus.active⟩).2.1.buffer = none ∧
     (readMessage none IncomingMessage.freshClient
        ⟨encodeHeader 7 (MAX_RPC_LEN + 1) ++ (List.replicate MAX_RPC_LEN 0 ++ []),
         FdStatus.active⟩).2.1.messageLength = min (MAX_RPC_LEN + 1) MAX_RPC_LEN ∧
     (readMessage none IncomingMessage.freshClient
        ⟨encodeHeader 7 (MAX_RPC_LEN + 1) ++ (List.replicate MAX_RPC_LEN 0 ++ []),
         FdStatus.active⟩).2.2 = ⟨[], FdStatus.active⟩ ∧
     (sessionReadable TcpSession.initial
        ⟨encodeHeader 7 (MAX_RPC_LEN + 1) ++ (List.replicate MAX_RPC_LEN 0 ++ []),
         FdStatus.active⟩).1.fdOpen = false ∧
     ((sessionReadable TcpSession.initial
        ⟨encodeHeader 7 (MAX_RPC_LEN + 1) ++ (List.replicate MAX_RPC_LEN 0 ++ []),
         FdStatus.active⟩).1.errorInfo).isSome = true) :=
  ⟨by decide, by decide, by decide, by rw [List.length_replicate]; omega,
   tcp_oversized_header_discards_and_closes none 7 (MAX_RPC_LEN + 1)
     (List.replicate MAX_RPC_LEN 0) [] FdStatus.active TcpSession.initial
     (by decide) (by decide) (by decide) (by rw [List.length_replicate]; omega)
     rfl rfl rfl⟩

theorem tcp_nonce_fresh_and_increasing_witness :
    TcpSession.initial.serial = 1 ∧
    1 ≤ TcpSession.initial.serial ∧
    (liveNonces TcpSession.initial).Nodup ∧
    (∀ n ∈ liveNonces TcpSession.initial, 1 ≤ n ∧ n < TcpSession.initial.serial) ∧
    (∀ req w st1 n, TcpSession.initial.errorInfo = none →
      clientSend TcpSession.initial req w = (st1, Except.ok n) →
      n = TcpSession.initial.serial ∧ st1.serial = TcpSession.initial.serial + 1) :=
  tcp_nonce_fresh_and_increasing TcpSession.initial Reach.init

theorem tcp_client_rpc_queue_partition_witness :
    QueuePartition TcpSession.initial ∧
    (∀ req w, QueuePartition (clientSend TcpSession.initial req w).1) ∧
    (∀ outs, QueuePartition (sessionWritable TcpSession.initial outs)) ∧
    (∀ s, QueuePartition (sessionReadable TcpSession.initial s).1) ∧
    (∀ n, QueuePartition (cancelCleanup TcpSession.initial n)) :=
  tcp_client_rpc_queue_partition TcpSession.initial Reach.init

theorem tcp_wire_order_fifo_witness :
    (∃ sentReq leftover, List.Sublist sentReq TcpSession.initial.submitted ∧
        TcpSession.initial.wire = framesOf sentReq ++ leftover ∧
        (leftover = [] ∨ ∃ p k, p ∈ TcpSession.initial.submitted ∧
          leftover = (wireFrame p.1 p.2).take k)) ∧
    (∃ sentRep leftover, List.Sublist sentRep Socket.initial.replyCalls ∧
        Socket.initial.wire = framesOf sentRep ++ leftover ∧
        (leftover = [] ∨ ∃ p k, p ∈ Socket.initial.replyCalls ∧
          leftover = (wireFrame p.1 p.2).take k)) :=
  tcp_wire_order_fifo TcpSession.initial Socket.initial Reach.init SockReach.init

theorem tcp_error_info_permanent_witness :
    (sessionFail TcpSession.initial peerClosedMsg).errorInfo.isSome = true ∧
    TcpSession.initial.fdOpen = true ∧
    TcpSession.initial.message = none ∧
    (clientSend (sessionFail TcpSession.initial peerClosedMsg) [] .eagain
        = (sessionFail TcpSession.initial peerClosedMsg, Except.error sessionUnusableMsg) ∧
     (clientSend (sessionFail TcpSession.initial peerClosedMsg)
        [] .eagain).1.errorInfo.isSome = true ∧
     (sessionWritable (sessionFail TcpSession.initial peerClosedMsg)
        []).errorInfo.isSome = true ∧
     (sessionReadable (sessionFail TcpSession.initial peerClosedMsg)
        ⟨[], FdStatus.active⟩).1.errorInfo.isSome = true ∧
     (cancelCleanup (sessionFail TcpSession.initial peerClosedMsg) 0).errorInfo.isSome
        = true ∧
     (sessionReadable TcpSession.initial ⟨[], FdStatus.closed⟩).1
        = sessionFail TcpSession.initial peerClosedMsg ∧
     (sessionFail TcpSession.initial peerClosedMsg).errorInfo = some peerClosedMsg ∧
     (sessionFail TcpSession.initial peerClosedMsg).fdOpen = false ∧
     (sessionFail TcpSession.initial peerClosedMsg).rpcsWaitingToSend = [] ∧
     (sessionFail TcpSession.initial peerClosedMsg).rpcsWaitingForResponse = [] ∧
     (sessionFail TcpSession.initial peerClosedMsg).failedRpcs
        = TcpSession.initial.failedRpcs ++ liveNonces TcpSession.initial) :=
  ⟨rfl, rfl, rfl,
   tcp_error_info_permanent (sessionFail TcpSession.initial peerClosedMsg)
     TcpSession.initial [] .eagain [] ⟨[], FdStatus.active⟩ 0 rfl rfl rfl⟩

theorem tcp_round_trip_identity_witness :
    (1 : Nat) < 2 ^ 64 ∧ ([65] : List Nat).length = 1 ∧
    roundTrip 1 [65] = some [65] :=
  ⟨by decide, rfl, tcp_round_trip_identity 1 [65] (by decide) (Or.inr (Or.inl rfl))⟩

theorem tcp_server_recv_no_listeners_witness :
    (freshManager.initialized = false ∨ freshManager.listening = []) ∧
    freshManager.serverRecv 5 = (RecvOutcome.unrecoverable noListenMsg, freshManager) :=
  ⟨Or.inl rfl, tcp_server_recv_no_listeners freshManager 5 (Or.inl rfl)⟩

theorem tcp_get_session_self_initializes_witness :
    freshManager.initialized = false ∧
    ∃ tm1, freshManager.initialize [] = some tm1 ∧
      freshManager.getSession []
        = (tm1, ([] : List ServiceLocator).findSome? (fun loc => tryLocator tm1 loc)) ∧
      tm1.initialized = true ∧
      tm1.listening = freshManager.listening ∧
      (∀ locs2, tm1.initialize locs2 = none) :=
  ⟨rfl, tcp_get_session_self_initializes freshManager [] rfl⟩

end RAMCloud
